import Mathlib

/-!
Verification of the ARGO NetCDF ingestion pipeline of `visualize-ocean`.

The development shallowly embeds the two source-specific processor variants:
`IndianOceanArgoProcessor` (src/utils/indian_ocean_netcdf.py) and
`ArgoNetCDFProcessor` (src/utils/netcdf_ingestion.py).  Floating-point cell
values are modelled as rationals plus an explicit NaN; an opened NetCDF
dataset is a record of optional variables (absent field = name not in the
dataset); exceptions that the Python code catches at a boundary are modelled
with `Option`.
-/

namespace ArgoIngest

/-- A cell value of a NetCDF variable after xarray decoding: either NaN
(the missing-value convention) or a finite number, modelled as a rational. -/
inductive FVal where
  | nan : FVal
  | num : ℚ → FVal
deriving DecidableEq

/-- Models `np.isnan(v)`. -/
def FVal.isnan : FVal → Bool
  | .nan => true
  | .num _ => false

/-- Models `v < 0` as numpy evaluates it: NaN compares false. -/
def FVal.isNeg : FVal → Bool
  | .nan => false
  | .num q => decide (q < 0)

/-- Models `float(v)`: the numeric content (only used on non-NaN values). -/
def FVal.toQ : FVal → ℚ
  | .nan => 0
  | .num q => q

/-- A numeric NetCDF array as the extractors see it: one-dimensional
(one profile) or two-dimensional (`N_PROF × N_LEVELS`, row access by a
total function on in-range indices). -/
inductive NCArray where
  | one : List FVal → NCArray
  | two : ℕ → ℕ → (ℕ → ℕ → FVal) → NCArray

/-- Two-index access `values[i, j]`; `none` is the `IndexError` raised by a
one-dimensional array or an out-of-range index. -/
def NCArray.at2 : NCArray → ℕ → ℕ → Option FVal
  | .one _, _, _ => none
  | .two p l g, i, j => if i < p ∧ j < l then some (g i j) else none

/-- Single-index access `values[j]`; on a two-dimensional array this yields a
row whose later use as a scalar raises, modelled as `none`. -/
def NCArray.at1 : NCArray → ℕ → Option FVal
  | .one vs, j => vs[j]?
  | .two _ _ _, _ => none

/-- Reads `arr` at `(i, j)` the way `_extract_record` indexes every
oceanographic variable: with both indices when the resolved pressure array is
two-dimensional, with the level index alone when it is one-dimensional. -/
def varAccess (pres : NCArray) (arr : NCArray) (i j : ℕ) : Option FVal :=
  match pres with
  | .two _ _ _ => arr.at2 i j
  | .one _ => arr.at1 j

/-- Reads the resolved pressure array itself at `(i, j)` following its own
shape (`pressure[i, j]` for 2-D, `pressure[j]` for 1-D). -/
def NCArray.shapeAccess : NCArray → ℕ → ℕ → Option FVal
  | .two p l g, i, j => if i < p ∧ j < l then some (g i j) else none
  | .one vs, _, j => vs[j]?

/-- Run configuration of `IndianOceanArgoProcessor` (`IndianOceanArgoConfig`),
with the source's default values. -/
structure IOConfig where
  latMin : ℚ := 0
  latMax : ℚ := 30
  lonMin : ℚ := 50
  lonMax : ℚ := 100
  startYear : ℕ := 2024
  endYear : ℕ := 2024
  startMonth : ℕ := 1
  endMonth : ℕ := 1
  maxFilesPerYear : ℕ := 5
  maxTotalFiles : ℕ := 10
  varsToKeep : List String := ["TEMP", "PSAL", "DOXY", "PRES"]

/-- An opened dataset as `IndianOceanArgoProcessor.process_nc_file` reads it:
each NetCDF variable name the code tests with `in ds` is an optional field
(`none` = the name is absent).  The `…QC` fields model quality-control flag
variables that may well be present in the file; the Indian-Ocean processor
never reads them.  `platform` is the `PLATFORM_NUMBER` array (already decoded
and stripped), `attrPlatform` the global `platform_number` attribute. -/
structure IODataset where
  juld : Option (List ℚ) := none
  timeVar : Option (List ℚ) := none
  latitude : Option (List ℚ) := none
  longitude : Option (List ℚ) := none
  lat : Option (List ℚ) := none
  lon : Option (List ℚ) := none
  pres : Option NCArray := none
  pressure : Option NCArray := none
  temp : Option NCArray := none
  psal : Option NCArray := none
  doxy : Option NCArray := none
  tempQC : Option (ℕ → ℕ → Option String) := none
  psalQC : Option (ℕ → ℕ → Option String) := none
  doxyQC : Option (ℕ → ℕ → Option String) := none
  platform : Option (List String) := none
  attrPlatform : Option String := none

/-- Alias resolution for the time coordinate: `JULD` first, then `TIME`. -/
def ioResolveTimes (ds : IODataset) : Option (List ℚ) :=
  match ds.juld with
  | some t => some t
  | none => ds.timeVar

/-- Alias resolution for the coordinates: the pair `LATITUDE`/`LONGITUDE`
first (both must be present), then the pair `LAT`/`LON`. -/
def ioResolveLatLon (ds : IODataset) : Option (List ℚ × List ℚ) :=
  match ds.latitude, ds.longitude with
  | some la, some lo => some (la, lo)
  | _, _ =>
    match ds.lat, ds.lon with
    | some la, some lo => some (la, lo)
    | _, _ => none

/-- Alias resolution for pressure: `PRES` first, then `PRESSURE`. -/
def ioResolvePres (ds : IODataset) : Option NCArray :=
  match ds.pres with
  | some p => some p
  | none => ds.pressure

/-- Variable lookup `var in ds` / `ds[var]` for the names the processors
extract. -/
def IODataset.lookupVar (ds : IODataset) (nm : String) : Option NCArray :=
  if nm = "TEMP" then ds.temp
  else if nm = "PSAL" then ds.psal
  else if nm = "DOXY" then ds.doxy
  else if nm = "PRES" then ds.pres
  else if nm = "PRESSURE" then ds.pressure
  else none

/-- Arabian Sea bounding box of the Indian-Ocean processor:
`50 <= lon <= 75 and 5 <= lat <= 25`. -/
def ioArabianBox (la lo : ℚ) : Prop :=
  50 ≤ lo ∧ lo ≤ 75 ∧ 5 ≤ la ∧ la ≤ 25

/-- Bay of Bengal bounding box of the Indian-Ocean processor:
`75 <= lon <= 95 and 5 <= lat <= 25`. -/
def ioBengalBox (la lo : ℚ) : Prop :=
  75 ≤ lo ∧ lo ≤ 95 ∧ 5 ≤ la ∧ la ≤ 25

instance (la lo : ℚ) : Decidable (ioArabianBox la lo) := by
  unfold ioArabianBox; infer_instance

instance (la lo : ℚ) : Decidable (ioBengalBox la lo) := by
  unfold ioBengalBox; infer_instance

/-- Region classification of `_extract_record`: the Arabian Sea box is tested
first, then the Bay of Bengal box, else the default label. -/
def ioRegion (la lo : ℚ) : String :=
  if ioArabianBox la lo then "Arabian Sea"
  else if ioBengalBox la lo then "Bay of Bengal"
  else "Indian Ocean"

/-- One measurement record produced by the Indian-Ocean extractor.
`date_time` is the resolved timestamp (`none` models the degenerate case of
an empty time array, where the code stringifies the whole array); `ph` is the
presence of the synthesized pH field (its value is random noise around 8.1
and therefore only its presence is modelled). -/
structure IORecord where
  float_id : String
  date_time : Option ℚ
  latitude : ℚ
  longitude : ℚ
  pressure : FVal
  depth : FVal
  region : String
  temperature : Option ℚ
  salinity : Option ℚ
  dissolved_oxygen : Option ℚ
  ph : Bool
deriving DecidableEq

/-- Accumulator of the variable-extraction loop: the three oceanographic
fields written so far and the `valid_vars` counter. -/
structure VarState where
  temperature : Option ℚ := none
  salinity : Option ℚ := none
  dissolved_oxygen : Option ℚ := none
  valid : ℕ := 0
deriving DecidableEq

/-- Writes the record field that belongs to variable `nm` (nothing for a name
outside TEMP/PSAL/DOXY) and increments `valid_vars`, exactly as the bodies of
the per-variable loops do once a value is accepted. -/
def setVarField (nm : String) (q : ℚ) (st : VarState) : VarState :=
  let st1 :=
    if nm = "TEMP" then { st with temperature := some q }
    else if nm = "PSAL" then { st with salinity := some q }
    else if nm = "DOXY" then { st with dissolved_oxygen := some q }
    else st
  { st1 with valid := st1.valid + 1 }

/-- One iteration of the variable loop of
`IndianOceanArgoProcessor._extract_record`: look the name up, read it with
the pressure-shaped indexing, skip on access error (`continue`) or NaN,
otherwise store the value.  No quality-control flag is consulted. -/
def ioStepVar (ds : IODataset) (pres : NCArray) (i j : ℕ) (st : VarState)
    (nm : String) : VarState :=
  match ds.lookupVar nm with
  | none => st
  | some arr =>
    match varAccess pres arr i j with
    | none => st
    | some v =>
      if v.isnan then st
      else setVarField nm v.toQ st

/-- Timestamp resolution of `_extract_record`: `times[i]` when in range, else
`times[0]` when non-empty, else the degenerate whole-array case (`none`). -/
def timeAt (ts : List ℚ) (i : ℕ) : Option ℚ :=
  if i < ts.length then ts[i]? else ts[0]?

/-- Coordinate resolution of `_extract_record`: indexed by the profile when
`len(lat) > i` (an out-of-range `lon[i]` raises, giving `none`), else the
first elements, else failure. -/
def coordPair (lat lon : List ℚ) (i : ℕ) : Option (ℚ × ℚ) :=
  if i < lat.length then
    match lat[i]?, lon[i]? with
    | some a, some b => some (a, b)
    | _, _ => none
  else if 0 < lat.length then
    match lat[0]?, lon[0]? with
    | some a, some b => some (a, b)
    | _, _ => none
  else none

/-- Models `IndianOceanArgoProcessor._extract_record`: resolve timestamp and
coordinates, read pressure by its own shape, classify the region, run the
variable loop over `vars_to_keep`, and return the record only when
`valid_vars > 0` (any caught exception yields `none`). -/
def ioExtractRecord (cfg : IOConfig) (ds : IODataset) (i j : ℕ)
    (fid : String) (times lat lon : List ℚ) (pres : NCArray) :
    Option IORecord :=
  match coordPair lat lon i with
  | none => none
  | some (la, lo) =>
    match pres.shapeAccess i j with
    | none => none
    | some pv =>
      let st := cfg.varsToKeep.foldl (ioStepVar ds pres i j) {}
      if 0 < st.valid then
        some { float_id := fid
               date_time := timeAt times i
               latitude := la
               longitude := lo
               pressure := pv
               depth := pv
               region := ioRegion la lo
               temperature := st.temperature
               salinity := st.salinity
               dissolved_oxygen := st.dissolved_oxygen
               ph := st.temperature.isSome && st.salinity.isSome }
      else none

/-- Platform resolution: the `PLATFORM_NUMBER` array when present, otherwise
the global attribute (default "unknown") repeated for every profile. -/
def ioPlatformList (ds : IODataset) (n : ℕ) : List String :=
  match ds.platform with
  | some ps => ps
  | none => List.replicate n (ds.attrPlatform.getD "unknown")

/-- Models `IndianOceanArgoProcessor.process_nc_file`: resolve the aliased
required fields (missing ⇒ empty result), then branch on the dimensionality
of the pressure array — nested profile/level loops for 2-D, a single level
loop (profile index 0) for 1-D — skipping levels with NaN or negative
pressure. -/
def ioProcessNcFile (cfg : IOConfig) (ds : IODataset) : List IORecord :=
  match ioResolveTimes ds with
  | none => []
  | some times =>
    match ioResolveLatLon ds with
    | none => []
    | some (lat, lon) =>
      match ioResolvePres ds with
      | none => []
      | some pres =>
        let platforms := ioPlatformList ds lat.length
        match pres with
        | .two nprof nlev g =>
          (List.range nprof).flatMap (fun i =>
            let fid := platforms.getD i "unknown"
            (List.range nlev).filterMap (fun j =>
              let pv := g i j
              if pv.isnan || pv.isNeg then none
              else ioExtractRecord cfg ds i j fid times lat lon pres))
        | .one vals =>
          let fid := platforms.getD 0 "unknown"
          (List.range vals.length).filterMap (fun j =>
            let pv := vals.getD j .nan
            if pv.isnan || pv.isNeg then none
            else ioExtractRecord cfg ds 0 j fid times lat lon pres)

/-- Geographic bounding-box test applied by
`IndianOceanArgoProcessor.process_all_files` to the combined table. -/
def ioInBounds (cfg : IOConfig) (r : IORecord) : Bool :=
  decide (cfg.latMin ≤ r.latitude) && decide (r.latitude ≤ cfg.latMax) &&
  decide (cfg.lonMin ≤ r.longitude) && decide (r.longitude ≤ cfg.lonMax)

/-- Models `IndianOceanArgoProcessor.process_all_files`: concatenate the
non-empty per-file tables (empty overall result when none), then filter by
the configured geographic bounds. -/
def ioProcessAllFiles (cfg : IOConfig) (dss : List IODataset) :
    List IORecord :=
  let dfs := (dss.map (ioProcessNcFile cfg)).filter (fun l => !l.isEmpty)
  if dfs.isEmpty then []
  else dfs.flatten.filter (ioInBounds cfg)

/-- Run configuration of `ArgoNetCDFProcessor` (`ArgoConfig`), with the
source's default values. -/
structure ArgoCfg where
  latMin : ℚ := 10
  latMax : ℚ := 25
  lonMin : ℚ := 65
  lonMax : ℚ := 85
  batchSize : ℕ := 5
  maxProfiles : ℕ := 50
  varsToKeep : List String := ["TEMP", "PSAL", "DOXY"]

/-- An opened dataset as `ArgoNetCDFProcessor.process_nc_file` reads it.
This variant requires exactly `PLATFORM_NUMBER` (a scalar), `JULD`,
`LATITUDE`, `LONGITUDE` and `PRES` — a `none` in any of these models the
`KeyError`/`ValueError` that the file-level handler converts into an empty
result.  `nprof`/`nlev` are the dataset dimensions `N_PROF`/`N_LEVELS` the
loops iterate over.  Quality-control flag variables hold byte-string codes,
read as `values[i, j]` (`none` = access error). -/
structure NCDataset where
  platform : Option String := none
  juld : Option (List ℚ) := none
  latitude : Option (List ℚ) := none
  longitude : Option (List ℚ) := none
  pres : Option NCArray := none
  nprof : ℕ := 0
  nlev : ℕ := 0
  temp : Option NCArray := none
  psal : Option NCArray := none
  doxy : Option NCArray := none
  tempQC : Option (ℕ → ℕ → Option String) := none
  psalQC : Option (ℕ → ℕ → Option String) := none
  doxyQC : Option (ℕ → ℕ → Option String) := none

/-- Variable lookup `var in ds` for the FTP-variant dataset. -/
def ncLookupVar (ds : NCDataset) (nm : String) : Option NCArray :=
  if nm = "TEMP" then ds.temp
  else if nm = "PSAL" then ds.psal
  else if nm = "DOXY" then ds.doxy
  else if nm = "PRES" then ds.pres
  else none

/-- Quality-control lookup `(var + "_QC") in ds` for the FTP-variant
dataset. -/
def ncLookupQC (ds : NCDataset) (nm : String) :
    Option (ℕ → ℕ → Option String) :=
  if nm = "TEMP" then ds.tempQC
  else if nm = "PSAL" then ds.psalQC
  else if nm = "DOXY" then ds.doxyQC
  else none

/-- Arabian Sea bounding box of the FTP-variant processor:
`65 <= lon <= 75 and 15 <= lat <= 25`. -/
def ncArabianBox (la lo : ℚ) : Prop :=
  65 ≤ lo ∧ lo ≤ 75 ∧ 15 ≤ la ∧ la ≤ 25

/-- Bay of Bengal bounding box of the FTP-variant processor:
`75 <= lon <= 85 and 10 <= lat <= 20`. -/
def ncBengalBox (la lo : ℚ) : Prop :=
  75 ≤ lo ∧ lo ≤ 85 ∧ 10 ≤ la ∧ la ≤ 20

instance (la lo : ℚ) : Decidable (ncArabianBox la lo) := by
  unfold ncArabianBox; infer_instance

instance (la lo : ℚ) : Decidable (ncBengalBox la lo) := by
  unfold ncBengalBox; infer_instance

/-- Region classification of the FTP-variant processor, Arabian Sea box
tested first. -/
def ncRegion (la lo : ℚ) : String :=
  if ncArabianBox la lo then "Arabian Sea"
  else if ncBengalBox la lo then "Bay of Bengal"
  else "Indian Ocean"

/-- One measurement record produced by the FTP-variant extractor; this
variant also stores the profile and level indices on the record. -/
structure NCRecord where
  float_id : String
  date_time : ℚ
  latitude : ℚ
  longitude : ℚ
  pressure : FVal
  depth : FVal
  profile_index : ℕ
  level_index : ℕ
  region : String
  temperature : Option ℚ
  salinity : Option ℚ
  dissolved_oxygen : Option ℚ
  ph : Bool
deriving DecidableEq

/-- One iteration of the variable loop of
`ArgoNetCDFProcessor.process_nc_file`: read `ds[var].values[i, j]` (an access
error aborts the whole file, hence the outer `Option`); when a `var_QC`
variable exists accept the value only under flag `'1'` or `'2'`; without QC
accept any non-NaN value. -/
def ncStepVar (ds : NCDataset) (i j : ℕ) (st : VarState) (nm : String) :
    Option VarState :=
  match ncLookupVar ds nm with
  | none => some st
  | some arr =>
    match arr.at2 i j with
    | none => none
    | some v =>
      match ncLookupQC ds nm with
      | some qc =>
        match qc i j with
        | none => none
        | some flag =>
          if flag = "1" ∨ flag = "2" then
            if v.isnan then some st else some (setVarField nm v.toQ st)
          else some st
      | none =>
        if v.isnan then some st else some (setVarField nm v.toQ st)

/-- The whole variable loop for one `(profile, level)` pair of the
FTP-variant extractor. -/
def ncVarLoop (cfg : ArgoCfg) (ds : NCDataset) (i j : ℕ) :
    Option VarState :=
  cfg.varsToKeep.foldlM (fun st nm => ncStepVar ds i j st nm) {}

/-- One `(profile, level)` iteration of the FTP-variant extractor: `none` is
an uncaught exception (aborting the whole file), `some none` a skipped level,
`some (some r)` a retained record.  A level is skipped when its pressure is
NaN or negative, and a built record is kept only when `valid_vars > 0`. -/
def ncCell (cfg : ArgoCfg) (ds : NCDataset) (fid : String)
    (times lat lon : List ℚ) (depth : NCArray) (i j : ℕ) :
    Option (Option NCRecord) :=
  match depth.at2 i j with
  | none => none
  | some d =>
    if d.isnan || d.isNeg then some none
    else
      match times[i]?, lat[i]?, lon[i]? with
      | some t, some la, some lo =>
        match ncVarLoop cfg ds i j with
        | none => none
        | some st =>
          if 0 < st.valid then
            some (some { float_id := fid
                         date_time := t
                         latitude := la
                         longitude := lo
                         pressure := d
                         depth := d
                         profile_index := i
                         level_index := j
                         region := ncRegion la lo
                         temperature := st.temperature
                         salinity := st.salinity
                         dissolved_oxygen := st.dissolved_oxygen
                         ph := st.temperature.isSome && st.salinity.isSome })
          else some none
      | _, _, _ => none

/-- Monadic map over `Option` with explicit structural recursion: the loop
body is run cell by cell and a `none` (an exception) aborts the whole
traversal, exactly like the unguarded loop of `process_nc_file`. -/
def optMapM {α β : Type} (f : α → Option β) : List α → Option (List β)
  | [] => some []
  | x :: xs =>
    match f x, optMapM f xs with
    | some y, some ys => some (y :: ys)
    | _, _ => none

/-- The profile/level index pairs `(i, j)` the FTP-variant loops visit, in
order. -/
def ncIndexPairs (nprof nlev : ℕ) : List (ℕ × ℕ) :=
  (List.range nprof).flatMap (fun i => (List.range nlev).map (fun j => (i, j)))

/-- Body of `ArgoNetCDFProcessor.process_nc_file` inside its try-block:
extract the required scalars/arrays (missing ⇒ exception), then iterate the
nested `N_PROF × N_LEVELS` loops; `none` models any exception reaching the
file-level handler. -/
def ncProcessCore (cfg : ArgoCfg) (ds : NCDataset) : Option (List NCRecord) :=
  match ds.platform, ds.juld, ds.latitude, ds.longitude, ds.pres with
  | some fid, some times, some lat, some lon, some depth =>
    match optMapM (fun p => ncCell cfg ds fid times lat lon depth p.1 p.2)
        (ncIndexPairs ds.nprof ds.nlev) with
    | none => none
    | some cells => some cells.reduceOption
  | _, _, _, _, _ => none

/-- Models `ArgoNetCDFProcessor.process_nc_file`: any exception is caught at
the file boundary and converted into an empty result. -/
def ncProcessNcFile (cfg : ArgoCfg) (ds : NCDataset) : List NCRecord :=
  (ncProcessCore cfg ds).getD []

/-- Geographic bounding-box test of the FTP variant's configuration (the
comparisons `filter_profiles` applies to the index). -/
def ncInBounds (cfg : ArgoCfg) (la lo : ℚ) : Bool :=
  decide (cfg.latMin ≤ la) && decide (la ≤ cfg.latMax) &&
  decide (cfg.lonMin ≤ lo) && decide (lo ≤ cfg.lonMax)

/-- Models `ArgoNetCDFProcessor.process_all_files`: concatenate the non-empty
per-file tables; no further filter is applied. -/
def ncProcessAllFiles (cfg : ArgoCfg) (dss : List NCDataset) :
    List NCRecord :=
  let dfs := (dss.map (ncProcessNcFile cfg)).filter (fun l => !l.isEmpty)
  if dfs.isEmpty then [] else dfs.flatten

/-- One remote HTML directory listing: the `href` values of its anchors, in
page order. -/
structure RemoteDir where
  anchors : List String

/-- The remote tree a discovery run crawls: a listing for each path (given as
segments below the base URL); `none` is a failed fetch. -/
structure RemoteFS where
  listing : List String → Option RemoteDir

/-- Emptiness, suffix, prefix and drop-last tests on strings, written over
the character list so that they evaluate inside the kernel; they are the
semantics of `str == ""`, `str.endswith`, `str.startswith` and
`str.rstrip('/')` on a single trailing slash. -/
def strIsEmpty (s : String) : Bool := s.data.isEmpty

/-- Suffix test `s.endswith(t)`. -/
def strEndsWith (s t : String) : Bool := t.data.isSuffixOf s.data

/-- Prefix test `s.startswith(t)`. -/
def strStartsWith (s t : String) : Bool := t.data.isPrefixOf s.data

/-- Drops the final character (used to strip the trailing slash of a month
anchor). -/
def strDropLast (s : String) : String := String.mk s.data.dropLast

/-- Two-digit month formatting `f"{m:02d}"`. -/
def monthStr (m : ℕ) : String :=
  if m < 10 then "0" ++ toString m else toString m

/-- The twelve anchors the month-directory regex `^(0[1-9]|1[0-2])/$`
matches. -/
def monthAnchors : List String :=
  (List.range 12).map (fun k => monthStr (k + 1) ++ "/")

/-- Anchor filter of the year-level scan: skip empty and parent links. -/
def validAnchor (h : String) : Bool :=
  !strIsEmpty h && !strStartsWith h ".."

/-- Scan one month subdirectory: fetch its listing (recording the request),
collect its `.nc` anchors up to `max_files_per_year`, and qualify them with
`year/month/`.  A fetch failure contributes zero candidates. -/
def scanMonth (cfg : IOConfig) (fs : RemoteFS) (year : ℕ) (mth : String) :
    List String × List (List String) :=
  match fs.listing [toString year, mth] with
  | none => ([], [[toString year, mth]])
  | some dir =>
    let files := (dir.anchors.filter (fun h =>
      !strIsEmpty h && strEndsWith h ".nc" && !strStartsWith h "..")).take
      cfg.maxFilesPerYear
    (files.map (fun h => toString year ++ "/" ++ mth ++ "/" ++ h),
     [[toString year, mth]])

/-- Scan one year directory of `discover_netcdf_files`: direct `.nc` anchors
win (capped per year); otherwise the month anchors are collected, only the
months of the configured range `[start_month, end_month]` that are present
are fetched (in ascending month order), and their files are capped again per
year.  The second component lists every request made. -/
def scanYear (cfg : IOConfig) (fs : RemoteFS) (year : ℕ) :
    List String × List (List String) :=
  match fs.listing [toString year] with
  | none => ([], [[toString year]])
  | some dir =>
    let anchors := dir.anchors.filter validAnchor
    let yearFiles := anchors.filter (fun h => strEndsWith h ".nc")
    let monthDirs := (anchors.filter (fun h => monthAnchors.contains h)).map
      strDropLast
    if !yearFiles.isEmpty then
      ((yearFiles.take cfg.maxFilesPerYear).map
        (fun h => toString year ++ "/" ++ h), [[toString year]])
    else if !monthDirs.isEmpty then
      let targets := ((List.range' cfg.startMonth
        (cfg.endMonth + 1 - cfg.startMonth)).map monthStr).filter
        (fun s => monthDirs.contains s)
      let step := fun (acc : List String × List (List String))
        (mth : String) =>
        let r := scanMonth cfg fs year mth
        (acc.1 ++ r.1, acc.2 ++ r.2)
      let m := targets.foldl step ([], [])
      (m.1.take cfg.maxFilesPerYear, [toString year] :: m.2)
    else ([], [[toString year]])

/-- Models `IndianOceanArgoProcessor.discover_netcdf_files`: scan the years
of the configured range in ascending order, stopping once the cap is
reached, and cap the overall result.  Returns the candidates and the list of
requests made. -/
def discoverNetcdfFiles (cfg : IOConfig) (fs : RemoteFS) (maxFiles : ℕ) :
    List String × List (List String) :=
  let years := List.range' cfg.startYear (cfg.endYear + 1 - cfg.startYear)
  let step := fun (acc : List String × List (List String)) (y : ℕ) =>
    if maxFiles ≤ acc.1.length then acc
    else
      let r := scanYear cfg fs y
      (acc.1 ++ r.1, acc.2 ++ r.2)
  let d := years.foldl step ([], [])
  (d.1.take maxFiles, d.2)

/-- Local download directory plus a count of the network fetches performed
(successful or failed). -/
structure DLState where
  files : List String
  fetches : ℕ
deriving DecidableEq

/-- One candidate of the transfer step (`_download_file_list` body /
`download_single_profile`): when the destination name already exists the
candidate is a success with no remote request; otherwise one fetch is
performed, creating the file on success.  `ok` tells whether the remote
transfer of a URL succeeds, `bn` maps a URL to its destination file name. -/
def downloadOne (ok : String → Bool) (bn : String → String) (st : DLState)
    (u : String) : DLState × Option String :=
  let f := bn u
  if f ∈ st.files then (st, some f)
  else if ok u then ({ files := st.files ++ [f], fetches := st.fetches + 1 },
    some f)
  else ({ st with fetches := st.fetches + 1 }, none)

/-- The transfer step over a candidate list, in order, threading the local
directory state; failures contribute nothing to the result list. -/
def downloadFileListSt (ok : String → Bool) (bn : String → String) :
    DLState → List String → DLState × List String
  | st, [] => (st, [])
  | st, u :: us =>
    let r := downloadOne ok bn st u
    let rest := downloadFileListSt ok bn r.1 us
    (rest.1, r.2.toList ++ rest.2)

/-- The two remote sources and the transfer behaviour one fallback run
sees. -/
structure FallbackEnv where
  ifremerFS : RemoteFS
  noaaFS : RemoteFS
  ok : String → Bool
  bn : String → String

/-- Models `IndianOceanArgoProcessor.download_files_with_fallback`: discover
from IFREMER with the full cap but download only the first `max_files // 2`
candidates; when fewer than `max_files` files resulted, discover from NOAA
with the remaining quota and download those. -/
def downloadFilesWithFallback (cfg : IOConfig) (env : FallbackEnv)
    (maxFiles : ℕ) (st : DLState) : DLState × List String :=
  let ifremerFiles := (discoverNetcdfFiles cfg env.ifremerFS maxFiles).1
  let d1 :=
    if ifremerFiles.isEmpty then (st, [])
    else downloadFileListSt env.ok env.bn st (ifremerFiles.take (maxFiles / 2))
  if d1.2.length < maxFiles then
    let remaining := maxFiles - d1.2.length
    let noaaFiles := (discoverNetcdfFiles cfg env.noaaFS remaining).1
    if noaaFiles.isEmpty then d1
    else
      let d2 := downloadFileListSt env.ok env.bn d1.1 (noaaFiles.take remaining)
      (d2.1, d1.2 ++ d2.2)
  else d1

/-- Models `IndianOceanArgoProcessor.run_full_ingestion` after downloading:
a schema-creation failure is caught by the outer handler (`false`); an empty
download list or an empty aggregated table returns `false` before the loader
runs; otherwise the loader result is returned.  The second component records
whether the loader (`save_to_sqlite`) was invoked. -/
def ioRunFullIngestion (cfg : IOConfig) (schemaOk : Bool)
    (downloaded : List IODataset) (saveOk : Bool) : Bool × Bool :=
  if schemaOk then
    if downloaded.isEmpty then (false, false)
    else
      let processed := ioProcessAllFiles cfg downloaded
      if processed.isEmpty then (false, false) else (saveOk, true)
  else (false, false)

/-- Models `ArgoNetCDFProcessor.run_full_ingestion`: schema creation and the
index fetch may fail (caught, `false`); an empty filtered index, an empty
download list or an empty aggregated table returns `false` before the
loader; otherwise the loader result is returned.  The second component
records whether the loader was invoked. -/
def ncRunFullIngestion (cfg : ArgoCfg) (schemaOk indexOk : Bool)
    (filtered : List String) (downloaded : List NCDataset) (saveOk : Bool) :
    Bool × Bool :=
  if schemaOk && indexOk then
    if filtered.isEmpty then (false, false)
    else if downloaded.isEmpty then (false, false)
    else
      let processed := ncProcessAllFiles cfg downloaded
      if processed.isEmpty then (false, false) else (saveOk, true)
  else (false, false)

/-! ### Concrete inputs used by counterexamples and witnesses -/

/-- A dataset whose only extractable variable is the pressure array itself:
`PRES` present, no TEMP/PSAL/DOXY. -/
def presOnlyDs : IODataset :=
  { juld := some [0], latitude := some [10], longitude := some [60],
    pres := some (.one [.num 10]) }

/-- A dataset carrying a numeric, non-missing TEMP value whose `TEMP_QC`
flag is `'4'` (bad). -/
def badQCDs : IODataset :=
  { juld := some [0], latitude := some [10], longitude := some [60],
    pres := some (.one [.num 100]),
    temp := some (.one [.num 25]),
    tempQC := some (fun _ _ => some "4") }

/-- An FTP-variant dataset producing one record at latitude 50 / longitude
150, far outside the configured bounding box. -/
def outOfBoxDs : NCDataset :=
  { platform := some "X", juld := some [0], latitude := some [50],
    longitude := some [150], pres := some (.two 1 1 (fun _ _ => .num 5)),
    nprof := 1, nlev := 1, temp := some (.two 1 1 (fun _ _ => .num 20)) }

/-- An FTP-variant dataset with a TEMP of 25.3 flagged `'4'` and a PSAL of
35 flagged `'1'`. -/
def qcMixDs : NCDataset :=
  { platform := some "X", juld := some [0], latitude := some [20],
    longitude := some [70], pres := some (.two 1 1 (fun _ _ => .num 5)),
    nprof := 1, nlev := 1,
    temp := some (.two 1 1 (fun _ _ => .num (253 / 10))),
    tempQC := some (fun _ _ => some "4"),
    psal := some (.two 1 1 (fun _ _ => .num 35)),
    psalQC := some (fun _ _ => some "1") }

/-- A remote tree with a nested year 2024: month anchors 01/, 02/, 03/, and
two `.nc` files inside 01/. -/
def nestedFS : RemoteFS :=
  ⟨fun p =>
    if p = ["2024"] then some ⟨["../", "01/", "02/", "03/"]⟩
    else if p = ["2024", "01"] then some ⟨["X.nc", "Y.nc"]⟩
    else none⟩

/-- A primary (IFREMER) tree with two flat files in year 2024. -/
def primaryFS : RemoteFS :=
  ⟨fun p => if p = ["2024"] then some ⟨["a.nc", "b.nc"]⟩ else none⟩

/-- A secondary (NOAA) tree with one flat file in year 2024. -/
def secondaryFS : RemoteFS :=
  ⟨fun p => if p = ["2024"] then some ⟨["c.nc"]⟩ else none⟩

/-- A fallback environment where every transfer succeeds. -/
def allOkEnv : FallbackEnv :=
  ⟨primaryFS, secondaryFS, fun _ => true, fun s => s⟩

/-- The 1-D/one-profile dataset of the shape-invariance witness. -/
def shape1Ds : IODataset :=
  { juld := some [7], latitude := some [12], longitude := some [80],
    platform := some ["F1"],
    pres := some (.one [.num 5, .num 15]),
    temp := some (.one [.num 20, .nan]),
    psal := some (.one [.num 35, .num 34]) }

/-- The equivalent 1×2 2-D dataset of the shape-invariance witness. -/
def shape2Ds : IODataset :=
  { juld := some [7], latitude := some [12], longitude := some [80],
    platform := some ["F1"],
    pres := some (.two 1 2 (fun _ j => if j = 0 then .num 5 else .num 15)),
    temp := some (.two 1 2 (fun _ j => if j = 0 then .num 20 else .nan)),
    psal := some (.two 1 2 (fun _ j => if j = 0 then .num 35 else .num 34)) }

/-- A dataset carrying both time aliases, with different values, to witness
the `JULD`-before-`TIME` priority. -/
def dualTimeDs : IODataset :=
  { juld := some [3], timeVar := some [9] }

/-- The record field of the loop accumulator that belongs to variable
`nm`. -/
def VarState.fieldOf (st : VarState) (nm : String) : Option ℚ :=
  if nm = "TEMP" then st.temperature
  else if nm = "PSAL" then st.salinity
  else if nm = "DOXY" then st.dissolved_oxygen
  else none

/-- The record field of an FTP-variant record that belongs to variable
`nm`. -/
def NCRecord.fieldOf (r : NCRecord) (nm : String) : Option ℚ :=
  if nm = "TEMP" then r.temperature
  else if nm = "PSAL" then r.salinity
  else if nm = "DOXY" then r.dissolved_oxygen
  else none

/-- The single record `qcMixDs` produces: its TEMP (flag '4') is rejected,
its PSAL (flag '1') accepted. -/
def qcMixRec : NCRecord :=
  { float_id := "X", date_time := 0, latitude := 20, longitude := 70,
    pressure := .num 5, depth := .num 5, profile_index := 0,
    level_index := 0, region := "Arabian Sea", temperature := none,
    salinity := some 35, dissolved_oxygen := none, ph := false }

/-- The 1-profile/1-level rendering of `qcMixDs` whose pressure array is
delivered one-dimensionally: every value is identical, only the shape of
`PRES` differs. -/
def qcMixDs1D : NCDataset :=
  { qcMixDs with pres := some (.one [.num 5]) }

/-- Element-wise equivalence of one optional variable between a 1-D layout
and a 1×N 2-D layout: both absent, or level access `values[j]` in the first
equals row-0 access `values[0, j]` in the second, for every level below
`n`. -/
def accessEquiv (n : ℕ) : Option NCArray → Option NCArray → Prop
  | none, none => True
  | some a, some b => ∀ j, j < n → a.at1 j = b.at2 0 j
  | none, some _ => False
  | some _, none => False

instance accessEquivDec (n : ℕ) :
    ∀ (a b : Option NCArray), Decidable (accessEquiv n a b)
  | none, none => isTrue trivial
  | some a, some b =>
    inferInstanceAs (Decidable (∀ j, j < n → a.at1 j = b.at2 0 j))
  | none, some _ => isFalse (fun h => h)
  | some _, none => isFalse (fun h => h)

/-! ### Analysis lemmas for the Indian-Ocean extractor -/

/-- Unfolding a successful `ioExtractRecord`: the coordinates and pressure
resolved, the variable loop reached a positive `valid_vars`, and the record
is exactly the built dictionary. -/
theorem ioExtractRecord_eq {cfg : IOConfig} {ds : IODataset} {i j : ℕ}
    {fid : String} {times lat lon : List ℚ} {pres : NCArray} {r : IORecord}
    (h : ioExtractRecord cfg ds i j fid times lat lon pres = some r) :
    ∃ la lo pv,
      coordPair lat lon i = some (la, lo) ∧
      pres.shapeAccess i j = some pv ∧
      0 < (cfg.varsToKeep.foldl (ioStepVar ds pres i j) {}).valid ∧
      r = { float_id := fid, date_time := timeAt times i, latitude := la,
            longitude := lo, pressure := pv, depth := pv,
            region := ioRegion la lo,
            temperature :=
              (cfg.varsToKeep.foldl (ioStepVar ds pres i j) {}).temperature,
            salinity :=
              (cfg.varsToKeep.foldl (ioStepVar ds pres i j) {}).salinity,
            dissolved_oxygen :=
              (cfg.varsToKeep.foldl (ioStepVar ds pres i j) {}).dissolved_oxygen,
            ph :=
              (cfg.varsToKeep.foldl
                (ioStepVar ds pres i j) {}).temperature.isSome &&
              (cfg.varsToKeep.foldl
                (ioStepVar ds pres i j) {}).salinity.isSome } := by
  unfold ioExtractRecord at h
  rcases hc : coordPair lat lon i with _ | ⟨la, lo⟩ <;> rw [hc] at h
  · simp at h
  rcases hp : pres.shapeAccess i j with _ | pv <;> rw [hp] at h
  · simp at h
  simp only [] at h
  split at h
  · exact ⟨la, lo, pv, rfl, rfl, by assumption, (Option.some_injective _ h).symm⟩
  · simp at h

/-- Case analysis of one Indian-Ocean variable-loop step: either the
accumulator is unchanged, or a non-NaN value was read and stored. -/
theorem ioStepVar_cases (ds : IODataset) (pres : NCArray) (i j : ℕ)
    (st : VarState) (nm : String) :
    ioStepVar ds pres i j st nm = st ∨
    ∃ arr v, ds.lookupVar nm = some arr ∧ varAccess pres arr i j = some v ∧
      v.isnan = false ∧
      ioStepVar ds pres i j st nm = setVarField nm v.toQ st := by
  unfold ioStepVar
  rcases hl : ds.lookupVar nm with _ | arr
  · exact Or.inl rfl
  dsimp only
  rcases ha : varAccess pres arr i j with _ | v
  · exact Or.inl rfl
  dsimp only
  by_cases hn : v.isnan = true
  · rw [if_pos hn]; exact Or.inl rfl
  · rw [if_neg hn]
    exact Or.inr ⟨arr, v, rfl, ha, Bool.not_eq_true _ ▸ hn, rfl⟩

/-- The valid-variable invariant of the Indian-Ocean variable loop: with the
shipped variable set, a positive count means one of the three oceanographic
fields was written or the `PRES` variable itself was counted. -/
theorem ioFold_valid {ds : IODataset} {pres : NCArray} {i j : ℕ} :
    ∀ (l : List String),
      (∀ nm ∈ l, nm = "TEMP" ∨ nm = "PSAL" ∨ nm = "DOXY" ∨ nm = "PRES") →
      ∀ st : VarState,
        (0 < st.valid → st.temperature.isSome = true ∨
          st.salinity.isSome = true ∨ st.dissolved_oxygen.isSome = true ∨
          ds.pres.isSome = true) →
        0 < (l.foldl (ioStepVar ds pres i j) st).valid →
        (l.foldl (ioStepVar ds pres i j) st).temperature.isSome = true ∨
        (l.foldl (ioStepVar ds pres i j) st).salinity.isSome = true ∨
        (l.foldl (ioStepVar ds pres i j) st).dissolved_oxygen.isSome = true ∨
        ds.pres.isSome = true := by
  intro l
  induction l with
  | nil => intro _ st hst h; exact hst h
  | cons nm tl ih =>
    intro hmem st hst
    rw [List.foldl_cons]
    refine ih (fun x hx => hmem x (List.mem_cons_of_mem _ hx))
      (ioStepVar ds pres i j st nm) ?_
    intro hv
    rcases ioStepVar_cases ds pres i j st nm with hc | ⟨arr, v, hl, _, _, hc⟩
    · rw [hc] at hv ⊢; exact hst hv
    rw [hc]
    rcases hmem nm (List.mem_cons_self nm tl) with h4 | h4 | h4 | h4 <;>
      subst h4 <;> simp only [setVarField] <;> simp
    simp [IODataset.lookupVar] at hl
    simp [hl]

/-- Every record emitted by the Indian-Ocean extractor has a non-NaN,
non-negative pressure, its region computed from its own coordinates by the
bounding boxes, and a variable loop that ended with `valid_vars > 0`. -/
theorem ioProcessNcFile_mem {cfg : IOConfig} {ds : IODataset} {r : IORecord}
    (h : r ∈ ioProcessNcFile cfg ds) :
    r.pressure.isnan = false ∧ r.pressure.isNeg = false ∧
    r.region = ioRegion r.latitude r.longitude ∧
    ∃ pres i j,
      ioResolvePres ds = some pres ∧
      0 < (cfg.varsToKeep.foldl (ioStepVar ds pres i j) {}).valid ∧
      r.temperature =
        (cfg.varsToKeep.foldl (ioStepVar ds pres i j) {}).temperature ∧
      r.salinity =
        (cfg.varsToKeep.foldl (ioStepVar ds pres i j) {}).salinity ∧
      r.dissolved_oxygen =
        (cfg.varsToKeep.foldl (ioStepVar ds pres i j) {}).dissolved_oxygen := by
  unfold ioProcessNcFile at h
  rcases ht : ioResolveTimes ds with _ | times <;> rw [ht] at h
  · simp at h
  rcases hll : ioResolveLatLon ds with _ | ⟨lat, lon⟩ <;> rw [hll] at h
  · simp at h
  rcases hp : ioResolvePres ds with _ | pres <;> rw [hp] at h
  · simp at h
  dsimp only at h
  cases pres with
  | two nprof nlev g =>
    rw [List.mem_flatMap] at h
    obtain ⟨i, hi, h⟩ := h
    rw [List.mem_filterMap] at h
    obtain ⟨j, hj, h⟩ := h
    rw [List.mem_range] at hi hj
    split at h
    · simp at h
    next hguard =>
    obtain ⟨la, lo, pv, hc, hpa, hv, hr⟩ := ioExtractRecord_eq h
    rw [NCArray.shapeAccess, if_pos ⟨hi, hj⟩] at hpa
    obtain rfl : g i j = pv := Option.some_injective _ hpa
    rw [Bool.or_eq_true, not_or] at hguard
    obtain ⟨hg1, hg2⟩ := hguard
    subst hr
    exact ⟨Bool.not_eq_true _ ▸ hg1, Bool.not_eq_true _ ▸ hg2, rfl,
      ⟨.two nprof nlev g, i, j, rfl, hv, rfl, rfl, rfl⟩⟩
  | one vals =>
    rw [List.mem_filterMap] at h
    obtain ⟨j, hj, h⟩ := h
    rw [List.mem_range] at hj
    split at h
    · simp at h
    next hguard =>
    obtain ⟨la, lo, pv, hc, hpa, hv, hr⟩ := ioExtractRecord_eq h
    rw [NCArray.shapeAccess] at hpa
    rw [List.getElem?_eq_getElem hj] at hpa
    obtain hpv : vals[j] = pv := Option.some_injective _ hpa
    rw [List.getD_eq_getElem?_getD, List.getElem?_eq_getElem hj] at hguard
    rw [hpv, Bool.or_eq_true, not_or] at hguard
    obtain ⟨hg1, hg2⟩ := hguard
    subst hr
    exact ⟨Bool.not_eq_true _ ▸ hg1, Bool.not_eq_true _ ▸ hg2, rfl,
      ⟨.one vals, 0, j, rfl, hv, rfl, rfl, rfl⟩⟩

/-! ### Analysis lemmas for the FTP-variant extractor -/

/-- Anything in the output of a successful `optMapM` traversal comes from
applying the body to some input element. -/
theorem optMapM_mem {α β : Type} {f : α → Option β} :
    ∀ {l : List α} {ys : List β}, optMapM f l = some ys →
      ∀ y ∈ ys, ∃ x ∈ l, f x = some y := by
  intro l
  induction l with
  | nil =>
    intro ys h y hy
    rw [optMapM] at h
    cases Option.some_injective _ h
    simp at hy
  | cons x xs ih =>
    intro ys h y hy
    rw [optMapM] at h
    rcases hx : f x with _ | y0 <;> rw [hx] at h
    · simp at h
    rcases hr : optMapM f xs with _ | ys0 <;> rw [hr] at h
    · simp at h
    cases Option.some_injective _ h
    rcases List.mem_cons.mp hy with rfl | hy0
    · exact ⟨x, List.mem_cons_self x xs, hx⟩
    · obtain ⟨x1, hx1, hfx1⟩ := ih hr y hy0
      exact ⟨x1, List.mem_cons_of_mem _ hx1, hfx1⟩

/-- Unfolding a retained cell of the FTP-variant loops: pressure read,
non-NaN and non-negative, metadata resolved, the variable loop finished with
a positive `valid_vars`, and the record is the built dictionary. -/
theorem ncCell_eq {cfg : ArgoCfg} {ds : NCDataset} {fid : String}
    {times lat lon : List ℚ} {depth : NCArray} {i j : ℕ} {r : NCRecord}
    (h : ncCell cfg ds fid times lat lon depth i j = some (some r)) :
    ∃ d t la lo st,
      depth.at2 i j = some d ∧ d.isnan = false ∧ d.isNeg = false ∧
      times[i]? = some t ∧ lat[i]? = some la ∧ lon[i]? = some lo ∧
      ncVarLoop cfg ds i j = some st ∧ 0 < st.valid ∧
      r = { float_id := fid, date_time := t, latitude := la, longitude := lo,
            pressure := d, depth := d, profile_index := i, level_index := j,
            region := ncRegion la lo, temperature := st.temperature,
            salinity := st.salinity,
            dissolved_oxygen := st.dissolved_oxygen,
            ph := st.temperature.isSome && st.salinity.isSome } := by
  unfold ncCell at h
  rcases hd : depth.at2 i j with _ | d <;> rw [hd] at h
  · simp at h
  dsimp only at h
  by_cases hskip : (d.isnan || d.isNeg) = true
  · rw [if_pos hskip] at h; simp at h
  rw [if_neg hskip] at h
  rw [Bool.or_eq_true, not_or] at hskip
  obtain ⟨hn1, hn2⟩ := hskip
  rcases htime : times[i]? with _ | t <;> rw [htime] at h
  · simp at h
  rcases hla : lat[i]? with _ | la <;> rw [hla] at h
  · simp at h
  rcases hlo : lon[i]? with _ | lo <;> rw [hlo] at h
  · simp at h
  dsimp only at h
  rcases hloop : ncVarLoop cfg ds i j with _ | st <;> rw [hloop] at h
  · simp at h
  dsimp only at h
  split at h
  · exact ⟨d, t, la, lo, st, rfl, Bool.not_eq_true _ ▸ hn1,
      Bool.not_eq_true _ ▸ hn2, rfl, rfl, rfl, rfl, by assumption,
      ((Option.some_injective _ (Option.some_injective _ h))).symm⟩
  · simp at h

/-- Every record of the FTP-variant extractor's output comes from one
retained cell of the nested loops, with all required metadata present. -/
theorem ncProcessNcFile_mem {cfg : ArgoCfg} {ds : NCDataset} {r : NCRecord}
    (h : r ∈ ncProcessNcFile cfg ds) :
    ∃ fid times lat lon depth i j,
      ds.platform = some fid ∧ ds.juld = some times ∧
      ds.latitude = some lat ∧ ds.longitude = some lon ∧
      ds.pres = some depth ∧ i < ds.nprof ∧ j < ds.nlev ∧
      ncCell cfg ds fid times lat lon depth i j = some (some r) := by
  unfold ncProcessNcFile ncProcessCore at h
  rcases h1 : ds.platform with _ | fid <;> rw [h1] at h
  · simp at h
  rcases h2 : ds.juld with _ | times <;> rw [h2] at h
  · simp at h
  rcases h3 : ds.latitude with _ | lat <;> rw [h3] at h
  · simp at h
  rcases h4 : ds.longitude with _ | lon <;> rw [h4] at h
  · simp at h
  rcases h5 : ds.pres with _ | depth <;> rw [h5] at h
  · simp at h
  dsimp only at h
  rcases hm : optMapM
      (fun p => ncCell cfg ds fid times lat lon depth p.1 p.2)
      (ncIndexPairs ds.nprof ds.nlev) with _ | cells <;> rw [hm] at h
  · simp at h
  rw [Option.getD_some, List.reduceOption_mem_iff] at h
  obtain ⟨p, hp, hcell⟩ := optMapM_mem hm (some r) h
  unfold ncIndexPairs at hp
  rw [List.mem_flatMap] at hp
  obtain ⟨i, hi, hp⟩ := hp
  rw [List.mem_map] at hp
  obtain ⟨j, hj, rfl⟩ := hp
  rw [List.mem_range] at hi hj
  exact ⟨fid, times, lat, lon, depth, i, j, rfl, rfl, rfl, rfl, rfl, hi, hj,
    hcell⟩

/-- The Indian-Ocean region function only produces the three labels. -/
theorem ioRegion_cases (la lo : ℚ) :
    ioRegion la lo = "Arabian Sea" ∨ ioRegion la lo = "Bay of Bengal" ∨
    ioRegion la lo = "Indian Ocean" := by
  unfold ioRegion
  split_ifs <;> simp

/-- The FTP-variant region function only produces the three labels. -/
theorem ncRegion_cases (la lo : ℚ) :
    ncRegion la lo = "Arabian Sea" ∨ ncRegion la lo = "Bay of Bengal" ∨
    ncRegion la lo = "Indian Ocean" := by
  unfold ncRegion
  split_ifs <;> simp

/-! ### Claim theorems -/

/-- C10: a coordinate pair satisfying both the Arabian Sea box and the Bay
of Bengal box (forcing the shared boundary longitude 75) is labelled
"Arabian Sea" in both processor variants, because that box is tested first;
and every emitted record's region is one of exactly the three labels. -/
theorem region_overlap_tiebreak (la lo la2 lo2 : ℚ)
    (h1 : ioArabianBox la lo) (h2 : ioBengalBox la lo)
    (h3 : ncArabianBox la2 lo2) (h4 : ncBengalBox la2 lo2) :
    lo = 75 ∧ lo2 = 75 ∧
    ioRegion la lo = "Arabian Sea" ∧ ncRegion la2 lo2 = "Arabian Sea" ∧
    (∀ (cfg : IOConfig) (ds : IODataset) (r : IORecord),
      r ∈ ioProcessNcFile cfg ds →
      r.region = "Arabian Sea" ∨ r.region = "Bay of Bengal" ∨
      r.region = "Indian Ocean") ∧
    (∀ (cfg : ArgoCfg) (ds : NCDataset) (r : NCRecord),
      r ∈ ncProcessNcFile cfg ds →
      r.region = "Arabian Sea" ∨ r.region = "Bay of Bengal" ∨
      r.region = "Indian Ocean") := by
  refine ⟨le_antisymm h1.2.1 h2.1, le_antisymm h3.2.1 h4.1, ?_, ?_, ?_, ?_⟩
  · rw [ioRegion, if_pos h1]
  · rw [ncRegion, if_pos h3]
  · intro cfg ds r hr
    obtain ⟨-, -, hreg, -⟩ := ioProcessNcFile_mem hr
    rw [hreg]
    exact ioRegion_cases _ _
  · intro cfg ds r hr
    obtain ⟨fid, times, lat, lon, depth, i, j, -, -, -, -, -, -, -, hcell⟩ :=
      ncProcessNcFile_mem hr
    obtain ⟨d, t, la3, lo3, st, -, -, -, -, -, -, -, -, hrec⟩ :=
      ncCell_eq hcell
    subst hrec
    exact ncRegion_cases _ _

/-- Witness for C10 at the concrete overlap points (10, 75) and (17, 75). -/
theorem region_overlap_tiebreak_witness :
    ioRegion 10 75 = "Arabian Sea" ∧ ncRegion 17 75 = "Arabian Sea" :=
  ⟨(region_overlap_tiebreak 10 75 17 75 (by decide) (by decide) (by decide)
      (by decide)).2.2.1,
   (region_overlap_tiebreak 10 75 17 75 (by decide) (by decide) (by decide)
      (by decide)).2.2.2.1⟩

/-! ### Aggregation and orchestration lemmas -/

/-- Dropping the empty sub-lists before concatenating changes nothing. -/
theorem flatten_filter_nonempty {α : Type} (l : List (List α)) :
    (l.filter (fun x => !x.isEmpty)).flatten = l.flatten := by
  induction l with
  | nil => rfl
  | cons x xs ih =>
    by_cases hx : x.isEmpty
    · rw [List.filter_cons_of_neg (by simp [hx]), List.flatten_cons,
        List.isEmpty_iff.mp hx, List.nil_append, ih]
    · rw [List.filter_cons_of_pos (by simp [hx]), List.flatten_cons,
        List.flatten_cons, ih]

/-- When every sub-list is empty, the concatenation is empty. -/
theorem flatten_eq_nil_of_filter_nil {α : Type} {l : List (List α)}
    (h : l.filter (fun x => !x.isEmpty) = []) : l.flatten = [] := by
  rw [← flatten_filter_nonempty, h]
  rfl

/-- C3 (amended): the Indian-Ocean aggregator equals the bounding-box filter
of the order-preserving concatenation of the per-file outputs — a record
appears there iff it was retained by extraction and lies inside the box; the
FTP-variant aggregator, by contrast, is the bare concatenation and applies
no bounding-box filter. -/
theorem aggregate_box_filter (cfg : IOConfig) (dss : List IODataset)
    (r : IORecord) (ncfg : ArgoCfg) (ndss : List NCDataset) :
    ioProcessAllFiles cfg dss =
      ((dss.map (ioProcessNcFile cfg)).flatten).filter (ioInBounds cfg) ∧
    (r ∈ ioProcessAllFiles cfg dss ↔
      r ∈ (dss.map (ioProcessNcFile cfg)).flatten ∧
      ioInBounds cfg r = true) ∧
    ncProcessAllFiles ncfg ndss = (ndss.map (ncProcessNcFile ncfg)).flatten := by
  have key : ioProcessAllFiles cfg dss =
      ((dss.map (ioProcessNcFile cfg)).flatten).filter (ioInBounds cfg) := by
    unfold ioProcessAllFiles
    dsimp only
    by_cases hd :
        ((dss.map (ioProcessNcFile cfg)).filter fun l => !l.isEmpty) = []
    · rw [hd, flatten_eq_nil_of_filter_nil hd]
      simp
    · rw [if_neg (by simpa [List.isEmpty_iff] using hd),
        flatten_filter_nonempty]
  refine ⟨key, by rw [key, List.mem_filter], ?_⟩
  unfold ncProcessAllFiles
  dsimp only
  by_cases hd :
      ((ndss.map (ncProcessNcFile ncfg)).filter fun l => !l.isEmpty) = []
  · rw [hd, flatten_eq_nil_of_filter_nil hd]
    simp
  · rw [if_neg (by simpa [List.isEmpty_iff] using hd),
      flatten_filter_nonempty]

/-- C3 counterexample: the FTP-variant aggregated output contains a record at
latitude 50 / longitude 150, far outside its configured bounding box. -/
theorem aggregate_box_filter_cex :
    ∃ r ∈ ncProcessAllFiles {} [outOfBoxDs],
      ncInBounds {} r.latitude r.longitude = false := by decide

/-- C6: an empty aggregated table — including the zero-successful-downloads
case — makes both orchestrators return the failure outcome without invoking
the loader, and the loader runs only on a non-empty aggregated table. -/
theorem empty_aggregate_fails (ioCfg : IOConfig) (schemaOk : Bool)
    (downloaded : List IODataset) (saveOk : Bool) (ncCfg : ArgoCfg)
    (schemaOk2 indexOk : Bool) (filtered : List String)
    (ndss : List NCDataset) (saveOk2 : Bool)
    (h1 : ioProcessAllFiles ioCfg downloaded = [])
    (h2 : ncProcessAllFiles ncCfg ndss = []) :
    ioRunFullIngestion ioCfg schemaOk downloaded saveOk = (false, false) ∧
    ncRunFullIngestion ncCfg schemaOk2 indexOk filtered ndss saveOk2 =
      (false, false) ∧
    (∀ (cfg : IOConfig) (s : Bool) (d : List IODataset) (v : Bool),
      (ioRunFullIngestion cfg s d v).2 = true → ioProcessAllFiles cfg d ≠ []) ∧
    (∀ (cfg : ArgoCfg) (s i : Bool) (f : List String) (d : List NCDataset)
      (v : Bool),
      (ncRunFullIngestion cfg s i f d v).2 = true →
      ncProcessAllFiles cfg d ≠ []) := by
  refine ⟨by simp [ioRunFullIngestion, h1], by simp [ncRunFullIngestion, h2],
    ?_, ?_⟩
  · intro cfg s d v h hemp
    rw [show ioRunFullIngestion cfg s d v = (false, false) from by
      simp [ioRunFullIngestion, hemp]] at h
    simp at h
  · intro cfg s i f d v h hemp
    rw [show ncRunFullIngestion cfg s i f d v = (false, false) from by
      simp [ncRunFullIngestion, hemp]] at h
    simp at h

/-- Witness for C6: the degenerate run with nothing downloaded. -/
theorem empty_aggregate_fails_witness :
    ioRunFullIngestion {} true [] true = (false, false) ∧
    ncRunFullIngestion {} true true [] [] true = (false, false) :=
  ⟨(empty_aggregate_fails {} true [] true {} true true [] [] true
      (by decide) (by decide)).1,
   (empty_aggregate_fails {} true [] true {} true true [] [] true
      (by decide) (by decide)).2.1⟩

/-! ### Transfer lemmas -/

/-- An already-present destination file is returned as a success with the
state untouched: no network request happens. -/
theorem downloadOne_exists {ok : String → Bool} {bn : String → String}
    {st : DLState} {u : String} (h : bn u ∈ st.files) :
    downloadOne ok bn st u = (st, some (bn u)) := by
  unfold downloadOne
  rw [if_pos h]

/-- A transfer run in which every remote fetch succeeds returns every
destination name, only grows the local directory, and leaves every fetched
destination present. -/
theorem downloadFileListSt_all_ok {ok : String → Bool} {bn : String → String} :
    ∀ (urls : List String) (st : DLState), (∀ u ∈ urls, ok u = true) →
      (downloadFileListSt ok bn st urls).2 = urls.map bn ∧
      st.files ⊆ (downloadFileListSt ok bn st urls).1.files ∧
      ∀ u ∈ urls, bn u ∈ (downloadFileListSt ok bn st urls).1.files := by
  intro urls
  induction urls with
  | nil => intro st _; exact ⟨rfl, fun x hx => hx, by simp⟩
  | cons u us ih =>
    intro st h
    rw [downloadFileListSt]
    by_cases hc : bn u ∈ st.files
    · rw [downloadOne_exists hc]
      obtain ⟨ih1, ih2, ih3⟩ := ih st (fun x hx => h x (List.mem_cons_of_mem _ hx))
      refine ⟨by simpa using ih1, ih2, ?_⟩
      intro x hx
      rcases List.mem_cons.mp hx with rfl | hx0
      · exact ih2 hc
      · exact ih3 x hx0
    · have hok : ok u = true := h u (List.mem_cons_self u us)
      rw [show downloadOne ok bn st u =
          ({ files := st.files ++ [bn u], fetches := st.fetches + 1 },
            some (bn u)) from by unfold downloadOne; rw [if_neg hc, if_pos hok]]
      obtain ⟨ih1, ih2, ih3⟩ :=
        ih { files := st.files ++ [bn u], fetches := st.fetches + 1 }
          (fun x hx => h x (List.mem_cons_of_mem _ hx))
      refine ⟨by simpa using ih1, ?_, ?_⟩
      · intro x hx
        exact ih2 (by simp [hx])
      · intro x hx
        rcases List.mem_cons.mp hx with rfl | hx0
        · exact ih2 (by simp)
        · exact ih3 x hx0

/-- A transfer run over candidates whose destinations all already exist is a
no-op: the state is unchanged and every candidate is reported a success. -/
theorem downloadFileListSt_all_exist {ok : String → Bool} {bn : String → String} :
    ∀ (urls : List String) (st : DLState), (∀ u ∈ urls, bn u ∈ st.files) →
      downloadFileListSt ok bn st urls = (st, urls.map bn) := by
  intro urls
  induction urls with
  | nil => intro st _; rfl
  | cons u us ih =>
    intro st h
    rw [downloadFileListSt, downloadOne_exists (h u (List.mem_cons_self u us)),
      ih st (fun x hx => h x (List.mem_cons_of_mem _ hx))]
    rfl

/-- C7 (amended): a candidate whose destination file name already exists is
returned as a success without any remote request; consequently, after a
first transfer run in which every fetch succeeded, a second run over the
same candidate list performs no network fetch at all (the state, fetch
counter included, is unchanged) and returns every candidate as a success.
A candidate whose transfer failed, however, is fetched again by the second
run. -/
theorem transfer_idempotent (ok : String → Bool) (bn : String → String)
    (st0 : DLState) (urls : List String) (h : ∀ u ∈ urls, ok u = true) :
    (∀ (st : DLState) (u : String), bn u ∈ st.files →
      downloadOne ok bn st u = (st, some (bn u))) ∧
    (downloadFileListSt ok bn st0 urls).2 = urls.map bn ∧
    downloadFileListSt ok bn (downloadFileListSt ok bn st0 urls).1 urls =
      ((downloadFileListSt ok bn st0 urls).1, urls.map bn) := by
  obtain ⟨h1, _, h3⟩ := downloadFileListSt_all_ok urls st0 h
  exact ⟨fun st u hm => downloadOne_exists hm, h1,
    downloadFileListSt_all_exist urls _ h3⟩

/-- Witness for C7 on one concrete candidate. -/
theorem transfer_idempotent_witness :
    (downloadFileListSt (fun _ => true) (fun s => s) ⟨[], 0⟩ ["a.nc"]).2 =
      ["a.nc"] ∧
    downloadFileListSt (fun _ => true) (fun s => s)
        (downloadFileListSt (fun _ => true) (fun s => s) ⟨[], 0⟩ ["a.nc"]).1
        ["a.nc"] =
      ((downloadFileListSt (fun _ => true) (fun s => s) ⟨[], 0⟩ ["a.nc"]).1,
        ["a.nc"]) :=
  ⟨(transfer_idempotent (fun _ => true) (fun s => s) ⟨[], 0⟩ ["a.nc"]
      (by decide)).2.1,
   (transfer_idempotent (fun _ => true) (fun s => s) ⟨[], 0⟩ ["a.nc"]
      (by decide)).2.2⟩

/-- C7 counterexample: a candidate whose transfer fails is fetched again by
the second invocation — two network fetches in total for one candidate — and
the second invocation returns no success. -/
theorem transfer_idempotent_cex :
    (downloadFileListSt (fun _ => false) (fun s => s)
      (downloadFileListSt (fun _ => false) (fun s => s) ⟨[], 0⟩
        ["u.nc"]).1 ["u.nc"]).1.fetches = 2 ∧
    (downloadFileListSt (fun _ => false) (fun s => s)
      (downloadFileListSt (fun _ => false) (fun s => s) ⟨[], 0⟩
        ["u.nc"]).1 ["u.nc"]).2 = [] := by decide

/-- A transfer run returns at most one success per candidate. -/
theorem downloadFileListSt_len {ok : String → Bool} {bn : String → String} :
    ∀ (urls : List String) (st : DLState),
      (downloadFileListSt ok bn st urls).2.length ≤ urls.length := by
  intro urls
  induction urls with
  | nil => intro st; exact Nat.le_refl 0
  | cons u us ih =>
    intro st
    rw [downloadFileListSt]
    rcases hr : downloadOne ok bn st u with ⟨st1, res⟩
    have hlen : res.toList.length ≤ 1 := by
      rcases res with _ | x <;> simp
    calc (res.toList ++ (downloadFileListSt ok bn st1 us).2).length
        = res.toList.length + (downloadFileListSt ok bn st1 us).2.length := by
          rw [List.length_append]
      _ ≤ 1 + us.length := Nat.add_le_add hlen (ih st1)
      _ = (u :: us).length := by rw [List.length_cons, Nat.add_comm]

/-- Whatever success one transfer step reports is the candidate's
destination name. -/
theorem downloadOne_snd {ok : String → Bool} {bn : String → String}
    {st : DLState} {u x : String}
    (h : (downloadOne ok bn st u).2 = some x) : x = bn u := by
  unfold downloadOne at h
  by_cases hm : bn u ∈ st.files
  · rw [if_pos hm] at h
    exact (Option.some_injective _ h).symm
  · rw [if_neg hm] at h
    by_cases hk : ok u = true
    · rw [if_pos hk] at h
      exact (Option.some_injective _ h).symm
    · rw [if_neg hk] at h
      simp at h

/-- Every success of a transfer run is the destination name of one of its
candidates. -/
theorem downloadFileListSt_from {ok : String → Bool} {bn : String → String} :
    ∀ (urls : List String) (st : DLState),
      ∀ x ∈ (downloadFileListSt ok bn st urls).2, ∃ u ∈ urls, x = bn u := by
  intro urls
  induction urls with
  | nil => intro st x hx; simp [downloadFileListSt] at hx
  | cons u us ih =>
    intro st x hx
    rw [downloadFileListSt] at hx
    rcases hr : downloadOne ok bn st u with ⟨st1, res⟩
    rw [hr] at hx
    dsimp only at hx
    rcases List.mem_append.mp hx with hx1 | hx2
    · refine ⟨u, List.mem_cons_self u us, ?_⟩
      have hres : res = some x := by
        rcases res with _ | y
        · simp at hx1
        · have hxy : x = y := List.mem_singleton.mp (by simpa using hx1)
          rw [hxy]
      exact downloadOne_snd (by rw [hr, hres])
    · obtain ⟨u1, hu1, hx1⟩ := ih st1 x hx2
      exact ⟨u1, List.mem_cons_of_mem _ hu1, hx1⟩

/-- C4 (amended): the fallback orchestration downloads from the primary
(IFREMER) source first and exclusively, but only up to `max_files // 2` of
its discovered candidates; the result splits into that primary part followed
by a secondary (NOAA) part drawn from a discovery capped by the remaining
quota.  Because the primary download list is cut at half the cap, a primary
source able to supply the full cap does not prevent the secondary source
from being consulted. -/
theorem fallback_halves_primary (cfg : IOConfig) (env : FallbackEnv)
    (maxFiles : ℕ) (st : DLState) :
    ∃ d1 d2 : List String,
      (downloadFilesWithFallback cfg env maxFiles st).2 = d1 ++ d2 ∧
      d1.length ≤ maxFiles / 2 ∧
      (∀ x ∈ d1, ∃ u ∈ (discoverNetcdfFiles cfg env.ifremerFS maxFiles).1,
        x = env.bn u) ∧
      (∀ x ∈ d2,
        ∃ u ∈ (discoverNetcdfFiles cfg env.noaaFS (maxFiles - d1.length)).1,
        x = env.bn u) := by
  unfold downloadFilesWithFallback
  dsimp only
  rcases hd1 :
    (if ((discoverNetcdfFiles cfg env.ifremerFS maxFiles).1).isEmpty then
      (st, ([] : List String))
    else downloadFileListSt env.ok env.bn st
      (((discoverNetcdfFiles cfg env.ifremerFS maxFiles).1).take
        (maxFiles / 2))) with ⟨st1, d1⟩
  have hlen : d1.length ≤ maxFiles / 2 := by
    by_cases he : ((discoverNetcdfFiles cfg env.ifremerFS maxFiles).1).isEmpty
    · rw [if_pos he] at hd1
      cases hd1
      exact Nat.zero_le _
    · rw [if_neg he] at hd1
      have := @downloadFileListSt_len env.ok env.bn
        (((discoverNetcdfFiles cfg env.ifremerFS maxFiles).1).take
          (maxFiles / 2)) st
      rw [hd1] at this
      exact Nat.le_trans this (List.length_take_le _ _)
  have hfrom : ∀ x ∈ d1,
      ∃ u ∈ (discoverNetcdfFiles cfg env.ifremerFS maxFiles).1,
        x = env.bn u := by
    by_cases he : ((discoverNetcdfFiles cfg env.ifremerFS maxFiles).1).isEmpty
    · rw [if_pos he] at hd1
      cases hd1
      intro x hx
      simp at hx
    · rw [if_neg he] at hd1
      intro x hx
      have := @downloadFileListSt_from env.ok env.bn
        (((discoverNetcdfFiles cfg env.ifremerFS maxFiles).1).take
          (maxFiles / 2)) st x (by rw [hd1]; exact hx)
      obtain ⟨u, hu, hxu⟩ := this
      exact ⟨u, List.mem_of_mem_take hu, hxu⟩
  dsimp only
  by_cases hlt : d1.length < maxFiles
  · rw [if_pos hlt]
    by_cases hne :
        ((discoverNetcdfFiles cfg env.noaaFS (maxFiles - d1.length)).1).isEmpty
    · rw [if_pos hne]
      exact ⟨d1, [], (List.append_nil d1).symm, hlen, hfrom, by simp⟩
    · rw [if_neg hne]
      refine ⟨d1,
        (downloadFileListSt env.ok env.bn st1
          (((discoverNetcdfFiles cfg env.noaaFS (maxFiles - d1.length)).1).take
            (maxFiles - d1.length))).2, rfl, hlen, hfrom, ?_⟩
      intro x hx
      obtain ⟨u, hu, hxu⟩ := downloadFileListSt_from _ _ x hx
      exact ⟨u, List.mem_of_mem_take hu, hxu⟩
  · rw [if_neg hlt]
    exact ⟨d1, [], (List.append_nil d1).symm, hlen, hfrom, by simp⟩

/-- Witness for C4 (no hypotheses beyond the data; instantiated at the
concrete all-success environment with cap 2). -/
theorem fallback_halves_primary_witness :
    ∃ d1 d2 : List String,
      (downloadFilesWithFallback {} allOkEnv 2 ⟨[], 0⟩).2 = d1 ++ d2 ∧
      d1.length ≤ 2 / 2 ∧
      (∀ x ∈ d1, ∃ u ∈ (discoverNetcdfFiles {} allOkEnv.ifremerFS 2).1,
        x = allOkEnv.bn u) ∧
      (∀ x ∈ d2,
        ∃ u ∈ (discoverNetcdfFiles {} allOkEnv.noaaFS (2 - d1.length)).1,
        x = allOkEnv.bn u) :=
  fallback_halves_primary {} allOkEnv 2 ⟨[], 0⟩

/-- C4 counterexample: with the primary source offering two candidates (the
full cap of 2) and every transfer succeeding, the run still downloads a file
from the secondary source — one fetch from each source — contradicting
"if the primary source can supply the full cap, no secondary-source download
occurs". -/
theorem fallback_halves_primary_cex :
    (discoverNetcdfFiles {} allOkEnv.ifremerFS 2).1.length = 2 ∧
    (downloadFilesWithFallback {} allOkEnv 2 ⟨[], 0⟩).2 =
      ["2024/a.nc", "2024/c.nc"] ∧
    (downloadFilesWithFallback {} allOkEnv 2 ⟨[], 0⟩).1.fetches = 2 := by
  decide

/-- C8: the Indian-Ocean extractor resolves each required field through its
alias chain in a fixed priority order — `JULD` before `TIME`, the
`LATITUDE`/`LONGITUDE` pair before `LAT`/`LON`, `PRES` before `PRESSURE` —
using the first present; when no alias of a required field is present the
file yields the empty record sequence.  The FTP-variant extractor likewise
yields the empty sequence when one of its required fields is missing: in
both variants the failure stays at the file boundary and no partial result
is produced. -/
theorem alias_priority_empty (cfg : IOConfig) (ds : IODataset)
    (ncfg : ArgoCfg) (nds : NCDataset) (t la lo : List ℚ) (p : NCArray) :
    (ds.juld = some t → ioResolveTimes ds = some t) ∧
    (ds.juld = none → ioResolveTimes ds = ds.timeVar) ∧
    (ds.latitude = some la → ds.longitude = some lo →
      ioResolveLatLon ds = some (la, lo)) ∧
    ((ds.latitude = none ∨ ds.longitude = none) → ds.lat = some la →
      ds.lon = some lo → ioResolveLatLon ds = some (la, lo)) ∧
    (ds.pres = some p → ioResolvePres ds = some p) ∧
    (ds.pres = none → ioResolvePres ds = ds.pressure) ∧
    (ioResolveTimes ds = none → ioProcessNcFile cfg ds = []) ∧
    (ioResolveLatLon ds = none → ioProcessNcFile cfg ds = []) ∧
    (ioResolvePres ds = none → ioProcessNcFile cfg ds = []) ∧
    (nds.platform = none → ncProcessNcFile ncfg nds = []) ∧
    (nds.juld = none → ncProcessNcFile ncfg nds = []) ∧
    (nds.latitude = none → ncProcessNcFile ncfg nds = []) ∧
    (nds.longitude = none → ncProcessNcFile ncfg nds = []) ∧
    (nds.pres = none → ncProcessNcFile ncfg nds = []) := by
  refine ⟨?_, ?_, ?_, ?_, ?_, ?_, ?_, ?_, ?_, ?_, ?_, ?_, ?_, ?_⟩
  · intro h; unfold ioResolveTimes; rw [h]
  · intro h; unfold ioResolveTimes; rw [h]
  · intro h1 h2; unfold ioResolveLatLon; rw [h1, h2]
  · intro hor h1 h2
    unfold ioResolveLatLon
    rw [h1, h2]
    rcases hor with h | h
    · rw [h]
    · rw [h]
      cases ds.latitude <;> rfl
  · intro h; unfold ioResolvePres; rw [h]
  · intro h; unfold ioResolvePres; rw [h]
  · intro h; unfold ioProcessNcFile; rw [h]
  · intro h
    unfold ioProcessNcFile
    rcases ioResolveTimes ds with _ | times
    · rfl
    · rw [h]
  · intro h
    unfold ioProcessNcFile
    rcases ioResolveTimes ds with _ | times
    · rfl
    rcases ioResolveLatLon ds with _ | ⟨lat, lon⟩
    · rfl
    rw [h]
  · intro h; unfold ncProcessNcFile ncProcessCore; rw [h]; rfl
  · intro h
    unfold ncProcessNcFile ncProcessCore
    rcases nds.platform with _ | fid
    · rfl
    rw [h]
    rfl
  · intro h
    unfold ncProcessNcFile ncProcessCore
    rcases nds.platform with _ | fid
    · rfl
    rcases nds.juld with _ | times
    · rfl
    rw [h]
    rfl
  · intro h
    unfold ncProcessNcFile ncProcessCore
    rcases nds.platform with _ | fid
    · rfl
    rcases nds.juld with _ | times
    · rfl
    rcases nds.latitude with _ | lat
    · rfl
    rw [h]
    rfl
  · intro h
    unfold ncProcessNcFile ncProcessCore
    rcases nds.platform with _ | fid
    · rfl
    rcases nds.juld with _ | times
    · rfl
    rcases nds.latitude with _ | lat
    · rfl
    rcases nds.longitude with _ | lon
    · rfl
    rw [h]
    rfl

/-- Witness for C8: `JULD` wins over a competing `TIME` on a concrete
dataset, and a dataset with no alias at all yields the empty sequence in
both variants. -/
theorem alias_priority_empty_witness :
    ioResolveTimes dualTimeDs = some [3] ∧ ioProcessNcFile {} {} = [] ∧
    ncProcessNcFile {} {} = [] :=
  ⟨(alias_priority_empty {} dualTimeDs {} {} [3] [] [] (.one [])).1 rfl,
   (alias_priority_empty {} ({} : IODataset) {} {} [3] [] []
      (.one [])).2.2.2.2.2.2.1 rfl,
   (alias_priority_empty {} ({} : IODataset) {} ({} : NCDataset) [3] [] []
      (.one [])).2.2.2.2.2.2.2.2.2.1 rfl⟩

/-- Case analysis of one FTP-variant variable-loop step that did not abort:
either the accumulator is unchanged (absent variable, rejected flag or NaN)
or a value was stored. -/
theorem ncStepVar_cases {ds : NCDataset} {i j : ℕ} {st : VarState}
    {nm : String} {st2 : VarState}
    (h : ncStepVar ds i j st nm = some st2) :
    st2 = st ∨ ∃ q, st2 = setVarField nm q st := by
  unfold ncStepVar at h
  rcases hl : ncLookupVar ds nm with _ | arr <;> rw [hl] at h
  · exact Or.inl (Option.some_injective _ h).symm
  dsimp only at h
  rcases ha : arr.at2 i j with _ | v <;> rw [ha] at h
  · simp at h
  dsimp only at h
  rcases hq : ncLookupQC ds nm with _ | qc <;> rw [hq] at h <;>
    dsimp only at h
  · split at h
    · exact Or.inl (Option.some_injective _ h).symm
    · exact Or.inr ⟨v.toQ, (Option.some_injective _ h).symm⟩
  rcases hf : qc i j with _ | flag <;> rw [hf] at h
  · simp at h
  dsimp only at h
  split at h
  · split at h
    · exact Or.inl (Option.some_injective _ h).symm
    · exact Or.inr ⟨v.toQ, (Option.some_injective _ h).symm⟩
  · exact Or.inl (Option.some_injective _ h).symm

/-- The valid-variable invariant of the FTP-variant loop: with the shipped
variable set, a positive count implies a populated oceanographic field. -/
theorem ncFold_valid {ds : NCDataset} {i j : ℕ} :
    ∀ (l : List String),
      (∀ nm ∈ l, nm = "TEMP" ∨ nm = "PSAL" ∨ nm = "DOXY") →
      ∀ st st1 : VarState,
        l.foldlM (fun s nm => ncStepVar ds i j s nm) st = some st1 →
        (0 < st.valid → st.temperature.isSome = true ∨
          st.salinity.isSome = true ∨ st.dissolved_oxygen.isSome = true) →
        0 < st1.valid →
        st1.temperature.isSome = true ∨ st1.salinity.isSome = true ∨
        st1.dissolved_oxygen.isSome = true := by
  intro l
  induction l with
  | nil =>
    intro _ st st1 h hst hv
    rw [List.foldlM_nil] at h
    cases Option.some_injective _ h
    exact hst hv
  | cons nm tl ih =>
    intro hmem st st1 h hst hv
    rw [List.foldlM_cons] at h
    rcases hs : ncStepVar ds i j st nm with _ | s2 <;> rw [hs] at h
    · simp at h
    refine ih (fun x hx => hmem x (List.mem_cons_of_mem _ hx)) s2 st1 h ?_ hv
    intro hv2
    rcases ncStepVar_cases hs with rfl | ⟨q, rfl⟩
    · exact hst hv2
    · rcases hmem nm (List.mem_cons_self nm tl) with h3 | h3 | h3 <;>
        subst h3 <;> simp [setVarField]

/-- C1 (amended): every record emitted by either extractor has a present,
non-NaN, non-negative pressure.  In the FTP variant — whose shipped variable
set is TEMP/PSAL/DOXY — at least one oceanographic field is also populated.
In the Indian-Ocean variant the shipped variable set additionally contains
`PRES`, which the loop counts like any other variable, so a record may owe
its retention to the pressure variable itself: at least one oceanographic
field is populated or the dataset's `PRES` variable is present. -/
theorem retention_invariant (ncfg : ArgoCfg) (nds : NCDataset)
    (cfg : IOConfig) (ds : IODataset)
    (h1 : ncfg.varsToKeep = ["TEMP", "PSAL", "DOXY"])
    (h2 : cfg.varsToKeep = ["TEMP", "PSAL", "DOXY", "PRES"]) :
    (∀ r ∈ ncProcessNcFile ncfg nds,
      r.pressure.isnan = false ∧ r.pressure.isNeg = false ∧
      (r.temperature.isSome = true ∨ r.salinity.isSome = true ∨
        r.dissolved_oxygen.isSome = true)) ∧
    (∀ r ∈ ioProcessNcFile cfg ds,
      r.pressure.isnan = false ∧ r.pressure.isNeg = false ∧
      (r.temperature.isSome = true ∨ r.salinity.isSome = true ∨
        r.dissolved_oxygen.isSome = true ∨ ds.pres.isSome = true)) := by
  constructor
  · intro r hr
    obtain ⟨fid, times, lat, lon, depth, i, j, -, -, -, -, -, -, -, hcell⟩ :=
      ncProcessNcFile_mem hr
    obtain ⟨d, t, la, lo, st, -, hn1, hn2, -, -, -, hloop, hv, hrec⟩ :=
      ncCell_eq hcell
    subst hrec
    refine ⟨hn1, hn2, ?_⟩
    unfold ncVarLoop at hloop
    rw [h1] at hloop
    exact ncFold_valid _ (by decide) {} st hloop
      (fun h => absurd h (by decide)) hv
  · intro r hr
    obtain ⟨hn1, hn2, -, pres, i, j, -, hv, he1, he2, he3⟩ :=
      ioProcessNcFile_mem hr
    refine ⟨hn1, hn2, ?_⟩
    rw [he1, he2, he3]
    rw [h2] at hv ⊢
    exact ioFold_valid _ (by decide) {} (fun h => absurd h (by decide)) hv

/-- Witness for C1 at concrete datasets of both variants. -/
theorem retention_invariant_witness :
    (∀ r ∈ ncProcessNcFile {} qcMixDs,
      r.pressure.isnan = false ∧ r.pressure.isNeg = false ∧
      (r.temperature.isSome = true ∨ r.salinity.isSome = true ∨
        r.dissolved_oxygen.isSome = true)) ∧
    (∀ r ∈ ioProcessNcFile {} shape1Ds,
      r.pressure.isnan = false ∧ r.pressure.isNeg = false ∧
      (r.temperature.isSome = true ∨ r.salinity.isSome = true ∨
        r.dissolved_oxygen.isSome = true ∨ shape1Ds.pres.isSome = true)) :=
  retention_invariant {} qcMixDs {} shape1Ds rfl rfl

/-- C1 counterexample: the Indian-Ocean extractor retains a record whose
only extracted value is pressure — all three oceanographic fields are
absent — because the `PRES` variable itself made `valid_vars` positive. -/
theorem retention_invariant_cex :
    ∃ r ∈ ioProcessNcFile {} presOnlyDs,
      r.temperature = none ∧ r.salinity = none ∧
      r.dissolved_oxygen = none ∧ r.pressure = FVal.num 10 := by decide

/-- Writing one variable's field leaves every other variable's field
unchanged. -/
theorem setVarField_fieldOf_ne {var nm : String} (h : var ≠ nm) (q : ℚ)
    (st : VarState) :
    (setVarField var q st).fieldOf nm = st.fieldOf nm := by
  unfold setVarField VarState.fieldOf
  split_ifs <;> first | rfl | simp_all

/-- Writing a variable's field stores exactly that value. -/
theorem setVarField_fieldOf_self {nm : String}
    (hnm : nm = "TEMP" ∨ nm = "PSAL" ∨ nm = "DOXY") (q : ℚ)
    (st : VarState) : (setVarField nm q st).fieldOf nm = some q := by
  rcases hnm with rfl | rfl | rfl <;> simp [setVarField, VarState.fieldOf]

/-- One non-aborting step for a different variable preserves a variable's
field. -/
theorem ncStepVar_preserve {ds : NCDataset} {i j : ℕ} {st st2 : VarState}
    {var nm : String} (h : ncStepVar ds i j st var = some st2)
    (hne : var ≠ nm) : st2.fieldOf nm = st.fieldOf nm := by
  rcases ncStepVar_cases h with rfl | ⟨q, rfl⟩
  · rfl
  · exact setVarField_fieldOf_ne hne q st

/-- A step whose variable carries a rejected quality-control flag leaves the
accumulator untouched. -/
theorem ncStepVar_badQC {ds : NCDataset} {i j : ℕ} {st : VarState}
    {nm : String} {qc : ℕ → ℕ → Option String} {flag : String}
    (hq : ncLookupQC ds nm = some qc) (hf : qc i j = some flag)
    (h1 : flag ≠ "1") (h2 : flag ≠ "2") {st2 : VarState}
    (h : ncStepVar ds i j st nm = some st2) : st2 = st := by
  unfold ncStepVar at h
  rcases hl : ncLookupVar ds nm with _ | arr <;> rw [hl] at h <;>
    dsimp only at h
  · exact (Option.some_injective _ h).symm
  rcases ha : arr.at2 i j with _ | v <;> rw [ha] at h <;> dsimp only at h
  · simp at h
  rw [hq] at h
  dsimp only at h
  rw [hf] at h
  dsimp only at h
  rw [if_neg (not_or.mpr ⟨h1, h2⟩)] at h
  exact (Option.some_injective _ h).symm

/-- A step whose variable has no quality-control flag stores any non-NaN
numeric value. -/
theorem ncStepVar_noQC {ds : NCDataset} {i j : ℕ} {st : VarState}
    {nm : String} {arr : NCArray} {q : ℚ}
    (hl : ncLookupVar ds nm = some arr)
    (ha : arr.at2 i j = some (FVal.num q))
    (hq : ncLookupQC ds nm = none) :
    ncStepVar ds i j st nm = some (setVarField nm q st) := by
  unfold ncStepVar
  rw [hl]
  dsimp only
  rw [ha]
  dsimp only
  rw [hq]
  simp [FVal.isnan, FVal.toQ]

/-- Field-level description of the whole FTP-variant variable loop for the
shipped variable set: a rejected flag leaves the variable's field empty, a
QC-less non-NaN numeric value populates it. -/
theorem ncVarLoop_fieldOf {cfg : ArgoCfg} {ds : NCDataset} {i j : ℕ}
    {st : VarState} (hv : cfg.varsToKeep = ["TEMP", "PSAL", "DOXY"])
    (h : ncVarLoop cfg ds i j = some st) (nm : String)
    (hnm : nm = "TEMP" ∨ nm = "PSAL" ∨ nm = "DOXY") :
    (∀ qc flag, ncLookupQC ds nm = some qc → qc i j = some flag →
      flag ≠ "1" → flag ≠ "2" → st.fieldOf nm = none) ∧
    (∀ arr q, ncLookupVar ds nm = some arr →
      arr.at2 i j = some (FVal.num q) → ncLookupQC ds nm = none →
      st.fieldOf nm = some q) := by
  unfold ncVarLoop at h
  rw [hv, List.foldlM_cons] at h
  obtain ⟨s1, hs1, h⟩ := Option.bind_eq_some.mp h
  rw [List.foldlM_cons] at h
  obtain ⟨s2, hs2, h⟩ := Option.bind_eq_some.mp h
  rw [List.foldlM_cons] at h
  obtain ⟨s3, hs3, h⟩ := Option.bind_eq_some.mp h
  rw [List.foldlM_nil] at h
  cases Option.some_injective _ h
  have init1 : VarState.fieldOf {} nm = none := by
    rcases hnm with rfl | rfl | rfl <;> rfl
  constructor
  · intro qc flag hq hf h1 h2
    rcases hnm with rfl | rfl | rfl
    · cases ncStepVar_badQC hq hf h1 h2 hs1
      rw [ncStepVar_preserve hs3 (by decide),
        ncStepVar_preserve hs2 (by decide), init1]
    · cases ncStepVar_badQC hq hf h1 h2 hs2
      rw [ncStepVar_preserve hs3 (by decide),
        ncStepVar_preserve hs1 (by decide), init1]
    · cases ncStepVar_badQC hq hf h1 h2 hs3
      rw [ncStepVar_preserve hs2 (by decide),
        ncStepVar_preserve hs1 (by decide), init1]
  · intro arr q hl ha hq
    rcases hnm with rfl | rfl | rfl
    · rw [ncStepVar_noQC hl ha hq] at hs1
      cases Option.some_injective _ hs1
      rw [ncStepVar_preserve hs3 (by decide),
        ncStepVar_preserve hs2 (by decide)]
      exact setVarField_fieldOf_self (by decide) q {}
    · rw [ncStepVar_noQC hl ha hq] at hs2
      cases Option.some_injective _ hs2
      rw [ncStepVar_preserve hs3 (by decide)]
      exact setVarField_fieldOf_self (by decide) q s1
    · rw [ncStepVar_noQC hl ha hq] at hs3
      cases Option.some_injective _ hs3
      exact setVarField_fieldOf_self (by decide) q s2

/-- C2 (amended): in the FTP variant, for every oceanographic variable that
comes with a QC flag variable, a record's field is populated only under flag
'1' (good) or '2' (probably good) — in particular a numeric non-missing
value flagged '4' leaves the field empty — and when no QC variable exists
any non-NaN numeric value is accepted.  The Indian-Ocean extractor consults
no QC variable at all: its output is unchanged under any modification of the
QC variables. -/
theorem qc_gating (cfg : ArgoCfg) (ds : NCDataset) (r : NCRecord)
    (nm : String) (hv : cfg.varsToKeep = ["TEMP", "PSAL", "DOXY"])
    (hr : r ∈ ncProcessNcFile cfg ds)
    (hnm : nm = "TEMP" ∨ nm = "PSAL" ∨ nm = "DOXY") :
    (∀ qc flag, ncLookupQC ds nm = some qc →
      qc r.profile_index r.level_index = some flag → flag ≠ "1" →
      flag ≠ "2" → r.fieldOf nm = none) ∧
    (∀ arr q, ncLookupVar ds nm = some arr →
      arr.at2 r.profile_index r.level_index = some (FVal.num q) →
      ncLookupQC ds nm = none → r.fieldOf nm = some q) ∧
    (∀ (icfg : IOConfig) (ids : IODataset)
      (q1 q2 q3 : Option (ℕ → ℕ → Option String)),
      ioProcessNcFile icfg
        { ids with tempQC := q1, psalQC := q2, doxyQC := q3 } =
      ioProcessNcFile icfg ids) := by
  obtain ⟨fid, times, lat, lon, depth, i, j, -, -, -, -, -, -, -, hcell⟩ :=
    ncProcessNcFile_mem hr
  obtain ⟨d, t, la, lo, st, -, -, -, -, -, -, hloop, -, hrec⟩ :=
    ncCell_eq hcell
  have hfield : r.fieldOf nm = st.fieldOf nm := by
    subst hrec
    rcases hnm with rfl | rfl | rfl <;> rfl
  have hij : r.profile_index = i ∧ r.level_index = j := by
    subst hrec
    exact ⟨rfl, rfl⟩
  obtain ⟨hPI, hLI⟩ := hij
  obtain ⟨part1, part2⟩ := ncVarLoop_fieldOf hv hloop nm hnm
  refine ⟨?_, ?_, ?_⟩
  · intro qc flag hq hf h1 h2
    rw [hfield]
    exact part1 qc flag hq (by rw [hPI, hLI] at hf; exact hf) h1 h2
  · intro arr q hl ha hq
    rw [hfield]
    exact part2 arr q hl (by rw [hPI, hLI] at ha; exact ha) hq
  · intro icfg ids q1 q2 q3
    cases ids
    rfl

/-- Witness for C2 at the concrete mixed-QC dataset: its record rejects the
'4'-flagged TEMP and the Indian-Ocean invariance holds. -/
theorem qc_gating_witness :
    (∀ qc flag, ncLookupQC qcMixDs "TEMP" = some qc →
      qc qcMixRec.profile_index qcMixRec.level_index = some flag →
      flag ≠ "1" → flag ≠ "2" → qcMixRec.fieldOf "TEMP" = none) ∧
    (∀ arr q, ncLookupVar qcMixDs "TEMP" = some arr →
      arr.at2 qcMixRec.profile_index qcMixRec.level_index =
        some (FVal.num q) → ncLookupQC qcMixDs "TEMP" = none →
      qcMixRec.fieldOf "TEMP" = some q) ∧
    (∀ (icfg : IOConfig) (ids : IODataset)
      (q1 q2 q3 : Option (ℕ → ℕ → Option String)),
      ioProcessNcFile icfg
        { ids with tempQC := q1, psalQC := q2, doxyQC := q3 } =
      ioProcessNcFile icfg ids) :=
  qc_gating {} qcMixDs qcMixRec "TEMP" rfl (by decide) (by decide)

/-- C2 counterexample: the Indian-Ocean extractor populates `temperature`
with the raw numeric value although the accompanying `TEMP_QC` flag at that
cell is '4'. -/
theorem qc_gating_cex :
    (∃ r ∈ ioProcessNcFile {} badQCDs, r.temperature = some 25) ∧
    (badQCDs.tempQC.getD (fun _ _ => none)) 0 0 = some "4" := by decide

/-- Congruence of `foldl` in its step function. -/
theorem foldl_ext {α β : Type} {f f2 : β → α → β} (h : ∀ b a, f b a = f2 b a) :
    ∀ (l : List α) (b : β), l.foldl f b = l.foldl f2 b := by
  intro l
  induction l with
  | nil => intro b; rfl
  | cons x xs ih => intro b; rw [List.foldl_cons, List.foldl_cons, h, ih]

/-- Congruence of `filterMap` in its function, on the list's members. -/
theorem filterMap_ext_mem {α β : Type} {f f2 : α → Option β} :
    ∀ (l : List α), (∀ a ∈ l, f a = f2 a) →
      l.filterMap f = l.filterMap f2 := by
  intro l
  induction l with
  | nil => intro _; rfl
  | cons x xs ih =>
    intro h
    rw [List.filterMap_cons, List.filterMap_cons,
      h x (List.mem_cons_self x xs),
      ih (fun a ha => h a (List.mem_cons_of_mem _ ha))]

/-- C5 (amended): the Indian-Ocean extractor branches on the dimensionality
of the resolved pressure array — nested profile/level loops for the 2-D
case, a single level loop for the 1-D case — and running it on a
1-profile/N-level dataset with one-dimensional pressure produces exactly
the same record sequence as running it on the equivalent 1×N
two-dimensional-pressure dataset.  The FTP-variant extractor, by contrast,
has no dimensionality branch: it always indexes pressure with both
indices, so any dataset whose pressure array is one-dimensional aborts at
the file boundary and yields the empty record sequence, whatever the
equivalent 2-D layout would yield. -/
theorem shape_invariance (cfg : IOConfig) (ds1 ds2 : IODataset)
    (vals : List FVal) (g : ℕ → ℕ → FVal)
    (hp1 : ds1.pres = some (.one vals))
    (hp2 : ds2.pres = some (.two 1 vals.length g))
    (hj : ds1.juld = ds2.juld) (ht : ds1.timeVar = ds2.timeVar)
    (hla : ds1.latitude = ds2.latitude)
    (hlo : ds1.longitude = ds2.longitude)
    (hla2 : ds1.lat = ds2.lat) (hlo2 : ds1.lon = ds2.lon)
    (hpl : ds1.platform = ds2.platform)
    (hap : ds1.attrPlatform = ds2.attrPlatform)
    (hv : ∀ nm, accessEquiv vals.length
      (ds1.lookupVar nm) (ds2.lookupVar nm)) :
    ioProcessNcFile cfg ds1 = ioProcessNcFile cfg ds2 ∧
    ∀ (ncfg : ArgoCfg) (nds : NCDataset) (nvals : List FVal),
      nds.pres = some (.one nvals) → ncProcessNcFile ncfg nds = [] := by
  have hnc : ∀ (ncfg : ArgoCfg) (nds : NCDataset) (nvals : List FVal),
      nds.pres = some (.one nvals) → ncProcessNcFile ncfg nds = [] := by
    intro ncfg nds nvals hpres
    unfold ncProcessNcFile ncProcessCore
    rcases nds.platform with _ | fid
    · rfl
    rcases nds.juld with _ | ntimes
    · rfl
    rcases nds.latitude with _ | nlat
    · rfl
    rcases nds.longitude with _ | nlon
    · rfl
    rw [hpres]
    dsimp only
    rcases ncIndexPairs nds.nprof nds.nlev with _ | ⟨p, rest⟩ <;> rfl
  refine ⟨?_, hnc⟩
  have hP := hv "PRES"
  rw [show ds1.lookupVar "PRES" = some (NCArray.one vals) from by
      simp [IODataset.lookupVar, hp1],
    show ds2.lookupVar "PRES" = some (NCArray.two 1 vals.length g) from by
      simp [IODataset.lookupVar, hp2]] at hP
  have hgv : ∀ (j : ℕ) (hjlt : j < vals.length), vals[j] = g 0 j := by
    intro j hjlt
    have h0 := hP j hjlt
    rw [show (NCArray.one vals).at1 j = some vals[j] from
        List.getElem?_eq_getElem hjlt,
      show (NCArray.two 1 vals.length g).at2 0 j = some (g 0 j) from
        if_pos ⟨Nat.one_pos, hjlt⟩] at h0
    exact Option.some_injective _ h0
  have hgd : ∀ (j : ℕ), j < vals.length → vals.getD j .nan = g 0 j := by
    intro j hjlt
    rw [List.getD_eq_getElem?_getD, List.getElem?_eq_getElem hjlt]
    exact hgv j hjlt
  have hstep : ∀ (j : ℕ), j < vals.length → ∀ (st : VarState) (nm : String),
      ioStepVar ds1 (NCArray.one vals) 0 j st nm =
      ioStepVar ds2 (NCArray.two 1 vals.length g) 0 j st nm := by
    intro j hjlt st nm
    have he := hv nm
    unfold ioStepVar
    revert he
    rcases ds1.lookupVar nm with _ | a1 <;>
      rcases ds2.lookupVar nm with _ | a2 <;> intro he
    · rfl
    · exact he.elim
    · exact he.elim
    · dsimp only
      rw [show varAccess (NCArray.one vals) a1 0 j = a1.at1 j from rfl,
        show varAccess (NCArray.two 1 vals.length g) a2 0 j = a2.at2 0 j
          from rfl, he j hjlt]
  have hT : ioResolveTimes ds1 = ioResolveTimes ds2 := by
    unfold ioResolveTimes; rw [hj, ht]
  have hL : ioResolveLatLon ds1 = ioResolveLatLon ds2 := by
    unfold ioResolveLatLon; rw [hla, hlo, hla2, hlo2]
  unfold ioProcessNcFile
  rw [hT, hL,
    show ioResolvePres ds1 = some (NCArray.one vals) from by
      unfold ioResolvePres; rw [hp1],
    show ioResolvePres ds2 = some (NCArray.two 1 vals.length g) from by
      unfold ioResolvePres; rw [hp2]]
  rcases ioResolveTimes ds2 with _ | times
  · rfl
  rcases ioResolveLatLon ds2 with _ | ⟨lat, lon⟩
  · rfl
  dsimp only
  have hplat : ioPlatformList ds1 lat.length =
      ioPlatformList ds2 lat.length := by
    unfold ioPlatformList; rw [hpl, hap]
  rw [hplat]
  have hex : ∀ (j : ℕ) (fid : String), j < vals.length →
      ioExtractRecord cfg ds1 0 j fid times lat lon (NCArray.one vals) =
      ioExtractRecord cfg ds2 0 j fid times lat lon
        (NCArray.two 1 vals.length g) := by
    intro j fid hjlt
    unfold ioExtractRecord
    rcases coordPair lat lon 0 with _ | ⟨la, lo⟩
    · rfl
    dsimp only
    rw [show (NCArray.one vals).shapeAccess 0 j =
        (NCArray.two 1 vals.length g).shapeAccess 0 j from by
      rw [show (NCArray.one vals).shapeAccess 0 j = some vals[j] from
          List.getElem?_eq_getElem hjlt,
        show (NCArray.two 1 vals.length g).shapeAccess 0 j = some (g 0 j)
          from if_pos ⟨Nat.one_pos, hjlt⟩, hgv j hjlt]]
    rcases (NCArray.two 1 vals.length g).shapeAccess 0 j with _ | pv
    · rfl
    dsimp only
    rw [foldl_ext (hstep j hjlt) cfg.varsToKeep {}]
  rw [show List.range 1 = [0] from rfl, List.flatMap_cons, List.flatMap_nil,
    List.append_nil]
  refine filterMap_ext_mem _ ?_
  intro j hjmem
  rw [List.mem_range] at hjmem
  dsimp only
  rw [hgd j hjmem]
  by_cases hsk : ((g 0 j).isnan || (g 0 j).isNeg) = true
  · rw [if_pos hsk, if_pos hsk]
  · rw [if_neg hsk, if_neg hsk]
    exact hex j _ hjmem

/-- Witness for C5: the concrete 1-D two-level dataset and its equivalent
1×2 2-D layout produce identical record sequences in the Indian-Ocean
extractor, and the FTP-variant extractor returns nothing for a concrete
1-D-pressure dataset. -/
theorem shape_invariance_witness :
    ioProcessNcFile {} shape1Ds = ioProcessNcFile {} shape2Ds ∧
    ncProcessNcFile {} qcMixDs1D = [] :=
  ⟨(shape_invariance {} shape1Ds shape2Ds [.num 5, .num 15]
      (fun _ j => if j = 0 then .num 5 else .num 15) rfl rfl rfl rfl rfl rfl
      rfl rfl rfl rfl
      (by intro nm; unfold IODataset.lookupVar; split_ifs <;> decide)).1,
   (shape_invariance {} shape1Ds shape2Ds [.num 5, .num 15]
      (fun _ j => if j = 0 then .num 5 else .num 15) rfl rfl rfl rfl rfl rfl
      rfl rfl rfl rfl
      (by intro nm; unfold IODataset.lookupVar; split_ifs <;> decide)).2
     {} qcMixDs1D [.num 5] rfl⟩

/-- C5 counterexample: the FTP-variant extractor (also cited by the claim)
is not shape-invariant — on the 1-profile/1-level rendering of `qcMixDs`
with one-dimensional pressure it produces no records, while the equivalent
1×1 two-dimensional-pressure layout produces one. -/
theorem shape_invariance_cex :
    ncProcessNcFile {} qcMixDs1D = [] ∧
    ncProcessNcFile {} qcMixDs = [qcMixRec] := by decide

/-! ### Discovery lemmas -/

/-- Scanning one month subdirectory requests exactly that month's URL. -/
theorem scanMonth_requests (cfg : IOConfig) (fs : RemoteFS) (y : ℕ)
    (mth : String) : (scanMonth cfg fs y mth).2 = [[toString y, mth]] := by
  unfold scanMonth
  rcases fs.listing [toString y, mth] with _ | dir <;> rfl

/-- The month loop of the year scan requests exactly the target months'
URLs, in order. -/
theorem month_fold_requests (cfg : IOConfig) (fs : RemoteFS) (y : ℕ) :
    ∀ (ts : List String) (acc : List String × List (List String)),
      (ts.foldl (fun acc mth =>
        (acc.1 ++ (scanMonth cfg fs y mth).1,
         acc.2 ++ (scanMonth cfg fs y mth).2)) acc).2 =
      acc.2 ++ ts.map (fun mth => [toString y, mth]) := by
  intro ts
  induction ts with
  | nil => intro acc; simp
  | cons t ts ih =>
    intro acc
    rw [List.foldl_cons]
    rw [ih, scanMonth_requests]
    simp

/-- Every request made by one year scan is the year's own URL or an
in-range month's URL. -/
theorem scanYear_requests (cfg : IOConfig) (fs : RemoteFS) (y : ℕ) :
    ∀ p ∈ (scanYear cfg fs y).2, p = [toString y] ∨
      ∃ m1, cfg.startMonth ≤ m1 ∧ m1 ≤ cfg.endMonth ∧
        p = [toString y, monthStr m1] := by
  intro p hp
  unfold scanYear at hp
  rcases hfs : fs.listing [toString y] with _ | dir <;> rw [hfs] at hp
  · exact Or.inl (by simpa using hp)
  dsimp only at hp
  split at hp
  · exact Or.inl (by simpa using hp)
  split at hp
  · rcases List.mem_cons.mp hp with rfl | hp2
    · exact Or.inl rfl
    · rw [month_fold_requests] at hp2
      rw [List.nil_append, List.mem_map] at hp2
      obtain ⟨mth, hmth, rfl⟩ := hp2
      rw [List.mem_filter, List.mem_map] at hmth
      obtain ⟨⟨m1, hm1, rfl⟩, -⟩ := hmth
      rw [List.mem_range'_1] at hm1
      exact Or.inr ⟨m1, hm1.1, by omega, rfl⟩
  · exact Or.inl (by simpa using hp)

/-- Unrolling the year fold of discovery: every recorded request comes from
some year scan. -/
theorem discover_fold_aux (cfg : IOConfig) (fs : RemoteFS) (maxFiles : ℕ) :
    ∀ (ys : List ℕ) (acc : List String × List (List String))
      (p : List String),
      p ∈ (ys.foldl (fun a y =>
        if maxFiles ≤ a.1.length then a
        else
          let r := scanYear cfg fs y
          (a.1 ++ r.1, a.2 ++ r.2)) acc).2 →
      p ∈ acc.2 ∨ ∃ y1, p ∈ (scanYear cfg fs y1).2 := by
  intro ys
  induction ys with
  | nil => intro acc p hp; exact Or.inl hp
  | cons y ys ih =>
    intro acc p hp
    rw [List.foldl_cons] at hp
    by_cases hc : maxFiles ≤ acc.1.length
    · rw [if_pos hc] at hp
      exact ih acc p hp
    · rw [if_neg hc] at hp
      rcases ih _ p hp with h | h
      · rcases List.mem_append.mp h with h0 | h0
        · exact Or.inl h0
        · exact Or.inr ⟨y, h0⟩
      · exact h.elim (fun y1 h1 => Or.inr ⟨y1, h1⟩)

/-- Every request a discovery run makes comes from some year scan. -/
theorem discover_requests_mem {cfg : IOConfig} {fs : RemoteFS}
    {maxFiles : ℕ} {p : List String}
    (hp : p ∈ (discoverNetcdfFiles cfg fs maxFiles).2) :
    ∃ y1, p ∈ (scanYear cfg fs y1).2 := by
  unfold discoverNetcdfFiles at hp
  dsimp only at hp
  rcases discover_fold_aux cfg fs maxFiles _ ([], []) p hp with h | h
  · simp at h
  · exact h

/-- Two-digit month formatting is injective below 13. -/
theorem monthStr_inj : ∀ m1, m1 < 13 → ∀ m2, m2 < 13 →
    monthStr m1 = monthStr m2 → m1 = m2 := by decide

/-- C9: in nested-listing discovery only month subdirectories whose number
lies inside the configured month range `[start_month, end_month]` are ever
fetched — for a month `m` outside the range (months and `end_month` read as
calendar months, at most 12) no request to `year/m` is ever made — and on
the concrete nested scenario (month anchors 01/, 02/, 03/, month range
[1, 1], 01/ holding X.nc and Y.nc) the candidates are exactly the two files
of month 01 while 02/ and 03/ are never fetched. -/
theorem month_range_discovery (cfg : IOConfig) (fs : RemoteFS)
    (maxFiles m y : ℕ) (h1 : 1 ≤ m) (h2 : m ≤ 12)
    (h3 : cfg.endMonth ≤ 12) (h4 : m < cfg.startMonth ∨ cfg.endMonth < m) :
    [toString y, monthStr m] ∉ (discoverNetcdfFiles cfg fs maxFiles).2 ∧
    discoverNetcdfFiles {} nestedFS 10 =
      (["2024/01/X.nc", "2024/01/Y.nc"], [["2024"], ["2024", "01"]]) := by
  constructor
  · intro hmem
    obtain ⟨y1, hy⟩ := discover_requests_mem hmem
    rcases scanYear_requests cfg fs y1 _ hy with heq | ⟨m1, hma, hmb, heq⟩
    · simp at heq
    · rw [List.cons.injEq, List.cons.injEq] at heq
      obtain ⟨-, hs, -⟩ := heq
      have hm1le : m1 ≤ 12 := le_trans hmb h3
      have hmm : m = m1 := monthStr_inj m (by omega) m1 (by omega) hs
      subst hmm
      rcases h4 with h4 | h4 <;> omega
  · decide

/-- Witness for C9: month 02 of the concrete nested scenario is never
requested, and its candidates are exactly the month-01 files. -/
theorem month_range_discovery_witness :
    [toString 2024, monthStr 2] ∉ (discoverNetcdfFiles {} nestedFS 10).2 ∧
    discoverNetcdfFiles {} nestedFS 10 =
      (["2024/01/X.nc", "2024/01/Y.nc"], [["2024"], ["2024", "01"]]) :=
  month_range_discovery {} nestedFS 10 2 2024 (by decide) (by decide)
    (by decide) (by decide)

end ArgoIngest
